import Mathlib

/-!
# acr-cli: the `cssc` / `patch` commands and the registry SDK helpers

A shallow embedding of `cmd/api/acrsdk.go` (`LoginURL`, `BasicAuth`) and of
`cmd/acr/cssc.go` (`newCopaPatchCmd`, `copaPatchCmd`, `listRepositories`),
followed by the theorems that settle the claims made about them.

Go strings are byte sequences, so they are embedded as lists of bytes.
Calls that leave the two source files (the registry client, oras, cobra) are
taken as parameters of the run; every call and every printed line is written
to a trace so that the order of effects can be stated.
-/

namespace AcrCli

/-! ## Go strings -/

/-- A Go string: an immutable sequence of bytes. -/
abbrev GoString := List (Fin 256)

/-- The bytes of an ASCII literal of the source. -/
def ascii (s : String) : GoString := s.toList.map (fun c => Fin.ofNat c.toNat)

/-- Go `strings.Contains(s, substr)`: `substr` occurs in `s` at some offset. -/
def stringsContains : GoString → GoString → Bool
  | [], substr => substr.isEmpty
  | c :: t, substr => substr.isPrefixOf (c :: t) || stringsContains t substr

/-! ## `cmd/api/acrsdk.go` -/

/-- The constant `registryURL = ".azurecr.io"`. -/
def registryURL : GoString := ascii ".azurecr.io"

/-- The function `LoginURL` of acrsdk.go:
`if strings.Contains(registryName, ".") { return registryName }; return registryName + registryURL`. -/
def LoginURL (registryName : GoString) : GoString :=
  if stringsContains registryName (ascii ".") then registryName
  else registryName ++ registryURL

/-- The alphabet of Go `base64.StdEncoding` (RFC 4648, section 4). -/
def encodeStd : GoString :=
  ascii "ABCDEFGHIJKLMNOPQRSTUVWXYZabcdefghijklmnopqrstuvwxyz0123456789+/"

/-- The padding character `=` of `base64.StdEncoding`. -/
def padChar : Fin 256 := 61

/-- The table lookup `enc.encode[i]` of Go `encoding/base64`. -/
def encodeIndex (i : Nat) : Fin 256 := encodeStd.getD i 0

/-- Go `base64.StdEncoding.EncodeToString`: every three input bytes are packed
into `val` and written as four alphabet characters; a remainder of one or two
bytes is written as two or three characters followed by `=` padding. -/
def stdEncodeToString : GoString → GoString
  | [] => []
  | [b0] =>
    let val := b0.val <<< 16
    [encodeIndex ((val >>> 18) &&& 0x3F), encodeIndex ((val >>> 12) &&& 0x3F), padChar, padChar]
  | [b0, b1] =>
    let val := (b0.val <<< 16) ||| (b1.val <<< 8)
    [encodeIndex ((val >>> 18) &&& 0x3F), encodeIndex ((val >>> 12) &&& 0x3F),
      encodeIndex ((val >>> 6) &&& 0x3F), padChar]
  | b0 :: b1 :: b2 :: rest =>
    let val := ((b0.val <<< 16) ||| (b1.val <<< 8)) ||| b2.val
    encodeIndex ((val >>> 18) &&& 0x3F) :: encodeIndex ((val >>> 12) &&& 0x3F) ::
      encodeIndex ((val >>> 6) &&& 0x3F) :: encodeIndex (val &&& 0x3F) :: stdEncodeToString rest

/-- The function `BasicAuth` of acrsdk.go:
`auth := username + ":" + password; return "Basic " + base64.StdEncoding.EncodeToString([]byte(auth))`. -/
def BasicAuth (username password : GoString) : GoString :=
  let auth := username ++ ascii ":" ++ password
  ascii "Basic " ++ stdEncodeToString auth

/-! ### Standard base64 as RFC 4648 states it, and the reading side of `BasicAuth` -/

/-- The character of a six-bit value in the base64 alphabet of RFC 4648,
table 1: 0..25 are `A`..`Z` (65..90), 26..51 are `a`..`z` (97..122), 52..61 are
`0`..`9` (48..57), 62 is `+` (43) and 63 is `/` (47). -/
def rfc4648Char (v : Nat) : Fin 256 :=
  if v < 26 then Fin.ofNat (65 + v)
  else if v < 52 then Fin.ofNat (97 + (v - 26))
  else if v < 62 then Fin.ofNat (48 + (v - 52))
  else if v = 62 then 43
  else 47

/-- The six-bit value of a character of the base64 alphabet of RFC 4648,
table 1; `none` for every other byte (`=` included). -/
def rfc4648Value (c : Fin 256) : Option Nat :=
  if 65 ≤ c.val ∧ c.val ≤ 90 then some (c.val - 65)
  else if 97 ≤ c.val ∧ c.val ≤ 122 then some (c.val - 97 + 26)
  else if 48 ≤ c.val ∧ c.val ≤ 57 then some (c.val - 48 + 52)
  else if c.val = 43 then some 62
  else if c.val = 47 then some 63
  else none

/-- Base64 encoding as RFC 4648, section 4 states it: each group of 24 input
bits is read as four 6-bit values; a final group of 8 bits gives two characters
and `==`, a final group of 16 bits gives three characters and `=` (byte 61). -/
def rfc4648Encode : GoString → GoString
  | [] => []
  | [b0] => [rfc4648Char (b0.val / 4), rfc4648Char (b0.val % 4 * 16), 61, 61]
  | [b0, b1] =>
    [rfc4648Char (b0.val / 4), rfc4648Char (b0.val % 4 * 16 + b1.val / 16),
      rfc4648Char (b1.val % 16 * 4), 61]
  | b0 :: b1 :: b2 :: rest =>
    rfc4648Char (b0.val / 4) :: rfc4648Char (b0.val % 4 * 16 + b1.val / 16) ::
      rfc4648Char (b1.val % 16 * 4 + b2.val / 64) :: rfc4648Char (b2.val % 64) ::
      rfc4648Encode rest

/-- Base64 decoding as RFC 4648, section 4 states it: four alphabet characters
give three bytes; the last group may end in `=` or `==` (byte 61). Anything
else is rejected. -/
def rfc4648Decode : GoString → Option GoString
  | [] => some []
  | c0 :: c1 :: c2 :: c3 :: rest =>
    match rfc4648Value c0, rfc4648Value c1 with
    | some v0, some v1 =>
      if c2 = 61 then
        if c3 = 61 ∧ rest = [] then
          some [Fin.ofNat ((v0 * 262144 + v1 * 4096) / 65536)]
        else none
      else
        match rfc4648Value c2 with
        | none => none
        | some v2 =>
          if c3 = 61 then
            if rest = [] then
              let val := v0 * 262144 + v1 * 4096 + v2 * 64
              some [Fin.ofNat (val / 65536), Fin.ofNat (val / 256)]
            else none
          else
            match rfc4648Value c3, rfc4648Decode rest with
            | some v3, some tail =>
              let val := v0 * 262144 + v1 * 4096 + v2 * 64 + v3
              some (Fin.ofNat (val / 65536) :: Fin.ofNat (val / 256) :: Fin.ofNat val :: tail)
            | _, _ => none
    | _, _ => none
  | _ => none

/-- Split a string at the first occurrence of the byte `sep`
(Go `strings.Cut`): the text before it and the text after it. -/
def cutAt (sep : Fin 256) : GoString → Option (GoString × GoString)
  | [] => none
  | c :: t =>
    if c = sep then some ([], t)
    else (cutAt sep t).map (fun r => (c :: r.1, r.2))

/-! ## Values exchanged with the collaborators of `cmd/acr/cssc.go` -/

/-- A Go `error` value; `errors.Wrap(cause, message)` keeps its cause. -/
inductive GoError
  | raw (text : String)
  | wrap (cause : GoError) (message : String)
deriving DecidableEq, Repr

/-- Go `errors.Wrap(err, message)`: nil for a nil `err`, otherwise an error
that wraps `err` under `message`. -/
def errorsWrap (err : Option GoError) (message : String) : Option GoError :=
  err.map (fun e => GoError.wrap e message)

/-- The fields of `rootParameters` read by the two commands. -/
structure rootParameters where
  username : GoString
  password : GoString
  configs : List GoString
deriving DecidableEq, Repr

/-- The struct `copaParameters` of cssc.go: the embedded `*rootParameters`, `filters []string`,
`filterTimeout uint64`. -/
structure copaParameters where
  rootParameters : rootParameters
  filters : List GoString
  filterTimeout : Nat
deriving DecidableEq, Repr

/-- The `acrapi.BaseClient` held by an `AcrCLIClient`. -/
structure BaseClient where
  LoginURI : GoString
deriving DecidableEq, Repr

/-- The struct `AcrCLIClient` of acrsdk.go. -/
structure AcrCLIClient where
  AutorestClient : BaseClient
  manifestTagFetchCount : Nat
deriving DecidableEq, Repr

/-- The `registry.Reference` of an oras `remote.Repository`. -/
structure RegistryReference where
  Registry : GoString
  Repository : GoString
  Reference : GoString
deriving DecidableEq, Repr

/-- The `auth.Client` that cssc.go installs: a static credential for one registry. -/
structure AuthClient where
  credentialRegistry : GoString
  Username : GoString
  Password : GoString
deriving DecidableEq, Repr

/-- An oras `remote.Repository`: its reference and its (replaceable) client. -/
structure Repository where
  Reference : RegistryReference
  Client : Option AuthClient
deriving DecidableEq, Repr

/-- An OCI descriptor; cssc.go only prints `desc.Digest.String()`. -/
structure Descriptor where
  Digest : GoString
deriving DecidableEq, Repr

/-- The response type `acrapi.Repositories`: `Names *[]string`. -/
structure Repositories where
  Names : Option (List GoString)
deriving DecidableEq, Repr

/-- What a run does that is visible from outside: the lines it prints and the
calls it makes to its collaborators, in program order. -/
inductive Event
  | println (line : GoString)
  | fmtPrint (text : GoString)
  | GetRegistryName
  | GetAcrCLIClientWithAuth (loginURL username password : GoString) (configs : List GoString)
  | NewRepository (reference : GoString)
  | memoryNew (store : Nat)
  | ExtendedCopy (src : Repository) (srcRef : GoString) (dst : Nat) (dstRef : GoString)
  | collectTagFilters (filters : List GoString) (client : BaseClient) (filterTimeout : Nat)
  | GetAcrRepositories (last : GoString)
  | listTags (loginURL repository : GoString)
deriving DecidableEq, Repr

/-- How a Go panic was raised. -/
inductive Panic
  | error (err : GoError)
  | nilDereference
deriving DecidableEq, Repr

/-- How a call ends: it returns its `error` result (`none` is nil), or it panics. -/
inductive Outcome
  | returned (err : Option GoError)
  | panicked (p : Panic)
deriving DecidableEq, Repr

/-- The functions called by cssc.go whose bodies are outside the two source
files. `W` is the state of the outside world (registry, network); calls made
inside the loop of `listRepositories` thread it. The functions called by the
`cssc` command are each called at most once per run, at a fixed program point,
so their answer is a function of their arguments. -/
structure Collaborators (W : Type) where
  GetRegistryName : rootParameters → GoString × Option GoError
  GetAcrCLIClientWithAuth :
    GoString → GoString → GoString → List GoString → Option AcrCLIClient × Option GoError
  NewRepository : GoString → Option Repository × Option GoError
  ExtendedCopy : Repository → GoString → Nat → GoString → Except GoError Descriptor
  collectTagFilters :
    List GoString → BaseClient → Nat → Except GoError (List (GoString × GoString))
  GetAcrRepositories :
    W → Option AcrCLIClient → GoString → W × Option Repositories × Option GoError
  listTags : W → Option AcrCLIClient → GoString → GoString → W × List GoString × Option GoError

/-! ## `cmd/acr/cssc.go` -/

/-- Modelled from the spec: the constant `defaultRegexpMatchTimeoutSeconds` is
declared outside the two source files; the filter deadline "defaults to a
fixed duration, e.g. 60 seconds, if unset" (the help text of `--filter` in
cssc.go says "The default timeout is set to 1 minute"). -/
def defaultRegexpMatchTimeoutSeconds : Nat := 60

/-- The command-line flags of the `cssc` command as the operator gave them:
every occurrence of `--filter`/`-f`, and `--filter-timeout-seconds` if set (a
`uint64` accepted by the flag parser; it is stored and passed on unchanged). -/
structure CsscFlags where
  filter : List GoString
  filterTimeoutSeconds : Option Nat
deriving DecidableEq, Repr

/-- The flag bindings of `newCopaPatchCmd`: `StringArrayVarP(&copaParams.filters, "filter", "f", nil, ...)`
and `Uint64Var(&copaParams.filterTimeout, "filter-timeout-seconds", defaultRegexpMatchTimeoutSeconds, ...)`. -/
def newCopaPatchCmd (rootParams : rootParameters) (flags : CsscFlags) : copaParameters :=
  { rootParameters := rootParams
    filters := flags.filter
    filterTimeout := flags.filterTimeoutSeconds.getD defaultRegexpMatchTimeoutSeconds }

/-- Go `memory.New()`: a new, empty store, identified by the number of stores
created earlier in the run. -/
def memoryNew (trace : List Event) : Nat × List Event :=
  let store := trace.countP (fun e => match e with | .memoryNew _ => true | _ => false)
  (store, trace ++ [Event.memoryNew store])

/-- The `RunE` closure of `newCopaPatchCmd` (the `cssc` command), cssc.go lines 39-107. -/
def newCopaPatchCmd_RunE {W : Type} (env : Collaborators W) (copaParams : copaParameters) :
    List Event × Outcome :=
  -- registryName, err := copaParams.GetRegistryName()   (err is overwritten below)
  let registryName := (env.GetRegistryName copaParams.rootParameters).1
  let loginURL := LoginURL registryName
  let t1 := [Event.GetRegistryName, Event.println loginURL, Event.println registryName,
    Event.GetAcrCLIClientWithAuth loginURL copaParams.rootParameters.username copaParams.rootParameters.password copaParams.rootParameters.configs]
  match env.GetAcrCLIClientWithAuth loginURL copaParams.rootParameters.username copaParams.rootParameters.password
      copaParams.rootParameters.configs with
  | (_, some err) => (t1, Outcome.returned (some err))
  | (acrClient, none) =>
    let reference := registryName ++ ascii "/ocirepocollection:latest"
    let t2 := t1 ++ [Event.NewRepository reference]
    match env.NewRepository reference with
    | (_, some err) => (t2, Outcome.panicked (Panic.error err))
    | (none, none) => (t2, Outcome.panicked Panic.nilDereference)
    | (some repo0, none) =>
      let repo : Repository := { repo0 with
        Client := some { credentialRegistry := registryName
                         Username := copaParams.rootParameters.username
                         Password := copaParams.rootParameters.password } }
      let t3 := t2 ++ [Event.println (ascii "authentication done"),
        Event.println repo.Reference.Registry]
      let (dst, t4) := memoryNew t3
      let t5 := t4 ++ [Event.ExtendedCopy repo (ascii "latest") dst (ascii "latest"),
        Event.println (ascii "after calling extended copy")]
      match env.ExtendedCopy repo (ascii "latest") dst (ascii "latest") with
      | .error err => (t5, Outcome.panicked (Panic.error err))
      | .ok desc =>
        let t6 := t5 ++ [Event.println desc.Digest]
        match acrClient with
        | none => (t6, Outcome.panicked Panic.nilDereference)
        | some client =>
          let t7 := t6 ++ [Event.collectTagFilters copaParams.filters client.AutorestClient
            copaParams.filterTimeout]
          match env.collectTagFilters copaParams.filters client.AutorestClient
              copaParams.filterTimeout with
          | .error err => (t7, Outcome.returned (some err))
          | .ok tagFilters =>
            (t7 ++ [Event.fmtPrint (ascii "Printing all values in tagFilters:\n")]
              ++ tagFilters.map (fun rt => Event.fmtPrint
                  (ascii "Repository: " ++ rt.1 ++ ascii ", Tag Regex: " ++ rt.2 ++ ascii "\n")),
              Outcome.returned none)

/-- The loop of `listRepositories`:
`for _, repository := range repositories { fmt.Printf("%s\n", repository); listTags(ctx, acrClient, loginURL, repository) }`.
The `error` returned by `listTags` is not assigned. -/
def listRepositories_loop {W : Type} (env : Collaborators W) (acrClient : Option AcrCLIClient)
    (loginURL : GoString) : List GoString → W → List Event → W × List Event
  | [], w, trace => (w, trace)
  | repository :: rest, w, trace =>
    let r := env.listTags w acrClient loginURL repository
    listRepositories_loop env acrClient loginURL rest r.1
      (trace ++ [Event.fmtPrint (repository ++ ascii "\n"), Event.listTags loginURL repository]
        ++ r.2.1.map Event.fmtPrint)

/-- The function `listRepositories` of cssc.go, lines 148-163. -/
def listRepositories {W : Type} (env : Collaborators W) (w : W)
    (acrClient : Option AcrCLIClient) (loginURL : GoString) : W × List Event × Outcome :=
  let r := env.GetAcrRepositories w acrClient (ascii "")
  let trace := [Event.GetAcrRepositories (ascii "")]
  match r.2.2 with
  | some err => (r.1, trace, Outcome.returned (errorsWrap (some err) "failed to list repositories"))
  | none =>
    match r.2.1 with
    | none => (r.1, trace, Outcome.returned none)
    | some resultRepositories =>
      -- repositories := *resultRepositories.Names
      match resultRepositories.Names with
      | none => (r.1, trace, Outcome.panicked Panic.nilDereference)
      | some repositories =>
        let l := listRepositories_loop env acrClient loginURL repositories r.1 trace
        (l.1, l.2, Outcome.returned none)

/-- The `RunE` closure of `copaPatchCmd` (the `patch` command), cssc.go lines 124-142. -/
def copaPatchCmd_RunE {W : Type} (env : Collaborators W) (w : W) (copaParams : copaParameters) :
    W × List Event × Outcome :=
  match env.GetRegistryName copaParams.rootParameters with
  | (_, some err) => (w, [Event.GetRegistryName], Outcome.returned (some err))
  | (registryName, none) =>
    let loginURL := LoginURL registryName
    let t1 := [Event.GetRegistryName,
      Event.GetAcrCLIClientWithAuth loginURL copaParams.rootParameters.username copaParams.rootParameters.password
        copaParams.rootParameters.configs]
    match env.GetAcrCLIClientWithAuth loginURL copaParams.rootParameters.username copaParams.rootParameters.password
        copaParams.rootParameters.configs with
    | (_, some err) => (w, t1, Outcome.returned (some err))
    | (acrClient, none) =>
      let r := listRepositories env w acrClient loginURL
      (r.1, t1 ++ r.2.1, r.2.2)

/-! ## Reading a trace -/

/-- The replication calls of a trace: source repository, source reference,
destination store and destination reference of every `oras.ExtendedCopy`. -/
def extendedCopyCalls (trace : List Event) : List (Repository × GoString × Nat × GoString) :=
  trace.filterMap (fun e => match e with
    | .ExtendedCopy src srcRef dst dstRef => some (src, srcRef, dst, dstRef)
    | _ => none)

/-- The filter-collection calls of a trace: filters, client and timeout budget
of every `collectTagFilters`. -/
def collectTagFiltersCalls (trace : List Event) : List (List GoString × BaseClient × Nat) :=
  trace.filterMap (fun e => match e with
    | .collectTagFilters filters client filterTimeout => some (filters, client, filterTimeout)
    | _ => none)

/-- The repositories on which `listTags` was called, in call order. -/
def listTagsCalls (trace : List Event) : List GoString :=
  trace.filterMap (fun e => match e with
    | .listTags _ repository => some repository
    | _ => none)

/-- The stores created by `memory.New()` in a trace. -/
def storesCreated (trace : List Event) : List Nat :=
  trace.filterMap (fun e => match e with
    | .memoryNew store => some store
    | _ => none)

/-- The part of a trace that precedes the first `collectTagFilters` call. -/
def beforeFilterCollection (trace : List Event) : List Event :=
  trace.takeWhile (fun e => match e with | .collectTagFilters _ _ _ => false | _ => true)

/-- The same collaborators with every `listTags` failure turned into success:
same world, same printed lines, nil error. -/
def withoutListTagsErrors {W : Type} (env : Collaborators W) : Collaborators W :=
  { env with listTags := fun w c l r => ((env.listTags w c l r).1, (env.listTags w c l r).2.1, none) }

/-! ## Concrete collaborators, used to run the commands on explicit inputs -/

/-- A registry "myreg" in which every call succeeds: two repositories `a` and
`b`, no tag filter matching anything, and a root manifest to copy. -/
def okEnv : Collaborators Unit :=
  { GetRegistryName := fun _ => (ascii "myreg", none)
    GetAcrCLIClientWithAuth := fun loginURL _ _ _ =>
      (some { AutorestClient := { LoginURI := ascii "https://" ++ loginURL }
              manifestTagFetchCount := 100 }, none)
    NewRepository := fun _ =>
      (some { Reference := { Registry := ascii "myreg", Repository := ascii "ocirepocollection",
                             Reference := ascii "latest" }
              Client := none }, none)
    ExtendedCopy := fun _ _ _ _ => .ok { Digest := ascii "sha256:0a" }
    collectTagFilters := fun _ _ _ => .ok []
    GetAcrRepositories := fun w _ _ => (w, some { Names := some [ascii "a", ascii "b"] }, none)
    listTags := fun w _ _ _ => (w, [], none) }

/-- The registry of `okEnv` in which replication fails. -/
def copyFailsEnv : Collaborators Unit :=
  { okEnv with ExtendedCopy := fun _ _ _ _ => .error (GoError.raw "manifest unknown") }

/-- The registry of `okEnv` in which authentication fails. -/
def authFailsEnv : Collaborators Unit :=
  { okEnv with GetAcrCLIClientWithAuth := fun _ _ _ _ => (none, some (GoError.raw "unauthorized")) }

/-- The registry of `okEnv` in which `listTags` fails on repository `a`. -/
def listTagsFailsEnv : Collaborators Unit :=
  { okEnv with listTags := fun w _ _ repository =>
      if repository = ascii "a" then (w, [], some (GoError.raw "failed to list tags"))
      else (w, [], none) }

/-- The registry of `okEnv` answering the repository listing with a response
whose `Names` field is absent. -/
def nilNamesEnv : Collaborators Unit :=
  { okEnv with GetAcrRepositories := fun w _ _ => (w, some { Names := none }, none) }

/-- Parameters of a run: credentials and one tag filter. -/
def sampleRoot : rootParameters :=
  { username := ascii "user", password := ascii "pass", configs := [] }

/-- The flags `--filter "app:^v[0-9]+$"` with the timeout left unset. -/
def sampleFlags : CsscFlags :=
  { filter := [ascii "app:^v[0-9]+$"], filterTimeoutSeconds := none }

/-! ## The replication engine behind `oras.ExtendedCopy`

The body of `oras.ExtendedCopy` is not part of the two source files; cssc.go
only calls it (line 69) on a store made by `memory.New()` (line 68). The
engine below follows the description of the DAG Replication Engine and of the
Content Store, and `withEngine` puts it behind the `ExtendedCopy` call of the
`cssc` command. -/

/-- A content digest: an algorithm-prefixed content hash, as text. -/
abbrev Digest := GoString

/-- The bytes of a blob. -/
abbrev Payload := GoString

/-- Modelled from the spec: the `ContentDescriptor` of the data model,
`{mediaType, digest, size}` (the descriptor type used by `oras.ExtendedCopy`,
which is outside the source files). -/
structure ContentDescriptor where
  mediaType : String
  digest : Digest
  size : Nat
deriving DecidableEq, Repr

/-- Modelled from the spec: the `ContentNode` of the data model, a fetched
artifact unit `{descriptor, payload, children, subject}` (outside the source
files). -/
structure ContentNode where
  descriptor : ContentDescriptor
  payload : Payload
  children : List ContentDescriptor
  subject : Option ContentDescriptor
deriving DecidableEq, Repr

/-- Modelled from the spec: the Content Store (the store of `memory.New()`,
outside the source files), a mapping from digest to bytes. -/
abbrev ContentStore := List (Digest × Payload)

/-- Modelled from the spec: the failures of a replication run (raised inside
`oras.ExtendedCopy`, outside the source files). The engine "reports which
digest failed and how many nodes had already been copied". -/
inductive ReplicationError
  | NotFound (reference : GoString)
  | FetchFailed (digest : Digest) (alreadyCopied : Nat)
  | DigestMismatch (digest : Digest) (alreadyCopied : Nat)
deriving DecidableEq, Repr

/-- Modelled from the spec: `Exists(digest) -> bool` of the Content Store
(outside the source files), a pure query. -/
def ContentStore.Exists (store : ContentStore) (digest : Digest) : Bool :=
  store.any (fun e => e.1 == digest)

/-- Modelled from the spec: `Put(descriptor, payload) -> ok` of the Content
Store (outside the source files). It "MUST verify hash(payload) ==
descriptor.digest; mismatch fails ... and the store is left unchanged"; "a Put
for a digest already present is a no-op that still reports success". `none`
is the `DigestMismatch` failure. -/
def ContentStore.Put (hash : Payload → Digest) (store : ContentStore)
    (descriptor : ContentDescriptor) (payload : Payload) : Option ContentStore :=
  if hash payload = descriptor.digest then
    if store.Exists descriptor.digest then some store
    else some (store ++ [(descriptor.digest, payload)])
  else none

/-- Modelled from the spec: the source side of a replication, the registry
seen through the Registry Client (outside the source files): its tags and the
artifacts it holds. -/
structure RegistryClient where
  tags : List (GoString × ContentDescriptor)
  nodes : List ContentNode
deriving DecidableEq, Repr

/-- Modelled from the spec: `Resolve(ref) -> descriptor` of the Registry Client
(outside the source files); the root of a run is "a tag or digest". -/
def RegistryClient.Resolve (registry : RegistryClient) (reference : GoString) :
    Option ContentDescriptor :=
  match registry.tags.find? (fun t => t.1 == reference) with
  | some t => some t.2
  | none =>
    (registry.nodes.find? (fun n => n.descriptor.digest == reference)).map
      (fun n => n.descriptor)

/-- Modelled from the spec: `Fetch(descriptor)` of the Registry Client (outside
the source files), giving the node stored under the descriptor's digest. -/
def RegistryClient.Fetch (registry : RegistryClient) (digest : Digest) : Option ContentNode :=
  registry.nodes.find? (fun n => n.descriptor.digest == digest)

/-- Modelled from the spec: `Referrers(descriptor) -> [descriptor]` of the
Registry Client (outside the source files): the "artifacts whose subject points
at this node". -/
def RegistryClient.Referrers (registry : RegistryClient) (digest : Digest) :
    List ContentDescriptor :=
  (registry.nodes.filter (fun n => n.subject.any (fun s => s.digest == digest))).map
    (fun n => n.descriptor)

/-- Modelled from the spec: what the engine is built with (outside the source
files): the content hash checked by `Put`, and which media types are
manifest types (the nodes whose referrers are queried). -/
structure Engine where
  hash : Payload → Digest
  isManifest : String → Bool

/-- Modelled from the spec: the working state of a replication run (inside
`oras.ExtendedCopy`, outside the source files): the frontier of descriptors to
visit, the `visited` set, the `copied` and `skipped` sets, the destination
store, and the log of the `Fetch` calls made. -/
structure EngineState where
  frontier : List ContentDescriptor
  visited : List Digest
  copied : List Digest
  skipped : List Digest
  store : ContentStore
  fetched : List Digest
deriving DecidableEq, Repr

/-- Adding a digest to a set of digests. -/
def setInsert (digest : Digest) (set : List Digest) : List Digest :=
  if digest ∈ set then set else set ++ [digest]

/-- Modelled from the spec: the edges that the engine follows out of a fetched
node (inside `oras.ExtendedCopy`, outside the source files): "both downward
(children) and attachment (referrer) edges", that is its `children` and, "for
every visited manifest-type node", the "artifacts whose subject points at this
node". -/
def successors (engine : Engine) (registry : RegistryClient) (node : ContentNode) :
    List ContentDescriptor :=
  node.children ++
    (if engine.isManifest node.descriptor.mediaType then
      registry.Referrers node.descriptor.digest else [])

/-- Modelled from the spec: steps 3 to 5 of the algorithm of the DAG
Replication Engine (the body of `oras.ExtendedCopy`, outside the source
files), breadth-first, one descriptor at a time. A popped descriptor whose
digest was already met in this run is dropped: "a digest is fetched and copied
at most once per replication run, regardless of how many parents reference it".
The data model requires `copied ∩ skipped = ∅`, so a digest goes to `skipped`
only when it is not copied, which is when the destination store already holds
it; the engine then does not descend into it. Otherwise the node is fetched,
verified and `Put`, its digest is added to `visited` and `copied`, and its
children and referrers are enqueued (those already visited are dropped when
they are popped). A fetch failure or digest mismatch aborts the run. The run
ends when the frontier is empty; `none` means that the step budget ran out
first. -/
def replicateLoop (engine : Engine) (registry : RegistryClient) :
    Nat → EngineState → Option (Except ReplicationError EngineState)
  | 0, st => if st.frontier.isEmpty then some (.ok st) else none
  | fuel + 1, st =>
    match st.frontier with
    | [] => some (.ok st)
    | descriptor :: rest =>
      if descriptor.digest ∈ st.visited then
        replicateLoop engine registry fuel { st with frontier := rest }
      else if st.store.Exists descriptor.digest then
        replicateLoop engine registry fuel
          { st with frontier := rest
                    visited := setInsert descriptor.digest st.visited
                    skipped := setInsert descriptor.digest st.skipped }
      else
        match registry.Fetch descriptor.digest with
        | none => some (.error (.FetchFailed descriptor.digest st.copied.length))
        | some node =>
          match st.store.Put engine.hash descriptor node.payload with
          | none => some (.error (.DigestMismatch descriptor.digest st.copied.length))
          | some store =>
            replicateLoop engine registry fuel
              { frontier := rest ++ successors engine registry node
                visited := setInsert descriptor.digest st.visited
                copied := setInsert descriptor.digest st.copied
                skipped := st.skipped
                store := store
                fetched := st.fetched ++ [descriptor.digest] }

/-- Modelled from the spec: the `ReplicationResult` of the data model,
`{root, copied, skipped}` (outside the source files). -/
structure ReplicationResult where
  root : ContentDescriptor
  copied : List Digest
  skipped : List Digest
deriving DecidableEq, Repr

/-- What a finished run leaves behind: its result, the destination store and
the log of the `Fetch` calls it made. -/
structure ReplicationRun where
  result : ReplicationResult
  store : ContentStore
  fetched : List Digest
deriving DecidableEq, Repr

/-- A bound on the number of descriptors a run can pop: the root, and for every
node of the registry its children and its referrers. -/
def stepBudget (registry : RegistryClient) : Nat :=
  1 + (registry.nodes.map (fun n =>
    n.children.length + (registry.Referrers n.descriptor.digest).length)).sum

/-- Modelled from the spec: the DAG Replication Engine (the function
`oras.ExtendedCopy`, outside the source files). Step 1 resolves the root
reference, step 2 seeds the frontier with the root and starts from an empty
`visited` set, steps 3 to 5 are `replicateLoop`. `dst` is the destination
store as the run finds it. -/
def Replicate (engine : Engine) (registry : RegistryClient) (reference : GoString)
    (dst : ContentStore) : Option (Except ReplicationError ReplicationRun) :=
  match registry.Resolve reference with
  | none => some (.error (.NotFound reference))
  | some root =>
    match replicateLoop engine registry (stepBudget registry)
        { frontier := [root], visited := [], copied := [], skipped := [], store := dst,
          fetched := [] } with
    | none => none
    | some (.error e) => some (.error e)
    | some (.ok st) =>
      some (.ok { result := { root := root, copied := st.copied, skipped := st.skipped }
                  store := st.store
                  fetched := st.fetched })

/-- The digests reachable from `root` along the edges the engine follows. -/
inductive Reachable (engine : Engine) (registry : RegistryClient) (root : Digest) :
    Digest → Prop
  | root : Reachable engine registry root root
  | edge {a : Digest} {b : ContentDescriptor} (node : ContentNode) :
      Reachable engine registry root a → registry.Fetch a = some node →
      b ∈ successors engine registry node → Reachable engine registry root b.digest

/-- The digests reachable from `root` without passing through a digest that
the destination already holds (`present`): the engine does not descend into
those. -/
inductive ReachableOutside (engine : Engine) (registry : RegistryClient)
    (present : List Digest) (root : Digest) : Digest → Prop
  | root : ReachableOutside engine registry present root root
  | edge {a : Digest} {b : ContentDescriptor} (node : ContentNode) :
      ReachableOutside engine registry present root a → a ∉ present →
      registry.Fetch a = some node → b ∈ successors engine registry node →
      ReachableOutside engine registry present root b.digest

/-- The Go `error` that `oras.ExtendedCopy` returns for a failed run. -/
def replicationGoError : ReplicationError → GoError
  | .NotFound _ => GoError.raw "not found"
  | .FetchFailed _ _ => GoError.raw "fetch failed"
  | .DigestMismatch _ _ => GoError.raw "digest mismatch"

/-- Modelled from the spec: the call `oras.ExtendedCopy(ctx, src, srcRef, dst,
dstRef, opts)` (outside the source files) as the engine's run over the content
of the source repository (`remote src`) into the store `dst`, which cssc.go
has just created with `memory.New()` and which is therefore empty. It returns
the root descriptor. -/
def orasExtendedCopy (engine : Engine) (remote : Repository → RegistryClient)
    (src : Repository) (srcRef : GoString) (_dst : Nat) (_dstRef : GoString) :
    Except GoError Descriptor :=
  match Replicate engine (remote src) srcRef [] with
  | some (.ok run) => .ok { Digest := run.result.root.digest }
  | some (.error e) => .error (replicationGoError e)
  | none => .error (GoError.raw "replication did not finish")

/-- The collaborators of a run in which `oras.ExtendedCopy` is the engine. -/
def withEngine {W : Type} (env : Collaborators W) (engine : Engine)
    (remote : Repository → RegistryClient) : Collaborators W :=
  { env with ExtendedCopy := orasExtendedCopy engine remote }

/-- The repository handle that the `cssc` run passes to `oras.ExtendedCopy`:
the one returned by `remote.NewRepository`, with the static credential of
cssc.go lines 57-64 installed. -/
def csscRepository {W : Type} (env : Collaborators W) (copaParams : copaParameters)
    (repo0 : Repository) : Repository :=
  { Reference := repo0.Reference
    Client := some { credentialRegistry := (env.GetRegistryName copaParams.rootParameters).1
                     Username := copaParams.rootParameters.username
                     Password := copaParams.rootParameters.password } }

/-- A toy content hash for concrete runs: the content itself. -/
def contentHash (payload : Payload) : Digest := payload

/-- The engine used in concrete runs: `contentHash`, and the OCI image index and
image manifest media types as manifest types. -/
def sampleEngine : Engine :=
  { hash := contentHash
    isManifest := fun m => m == "application/vnd.oci.image.index.v1+json" ||
      m == "application/vnd.oci.image.manifest.v1+json" }

/-- Descriptor of a blob whose content is `content`. -/
def blobDescriptor (mediaType : String) (content : GoString) : ContentDescriptor :=
  { mediaType := mediaType, digest := contentHash content, size := content.length }

/-- A registry holding one image index `I` tagged `latest` with two manifests
`M1` and `M2` that share the layer `L`: `L` has two parents. -/
def diamondRegistry : RegistryClient :=
  let index := blobDescriptor "application/vnd.oci.image.index.v1+json" (ascii "I")
  let m1 := blobDescriptor "application/vnd.oci.image.manifest.v1+json" (ascii "M1")
  let m2 := blobDescriptor "application/vnd.oci.image.manifest.v1+json" (ascii "M2")
  let layer := blobDescriptor "application/vnd.oci.image.layer.v1.tar" (ascii "L")
  { tags := [(ascii "latest", index)]
    nodes := [
      { descriptor := index, payload := ascii "I", children := [m1, m2], subject := none },
      { descriptor := m1, payload := ascii "M1", children := [layer], subject := none },
      { descriptor := m2, payload := ascii "M2", children := [layer], subject := none },
      { descriptor := layer, payload := ascii "L", children := [], subject := none }] }

/-- What replicating `latest` out of `diamondRegistry` into an empty store gives. -/
def diamondRun : ReplicationRun :=
  { result :=
      { root := blobDescriptor "application/vnd.oci.image.index.v1+json" (ascii "I")
        copied := [ascii "I", ascii "M1", ascii "M2", ascii "L"]
        skipped := [] }
    store := [(ascii "I", ascii "I"), (ascii "M1", ascii "M1"), (ascii "M2", ascii "M2"),
      (ascii "L", ascii "L")]
    fetched := [ascii "I", ascii "M1", ascii "M2", ascii "L"] }

/-- What replicating `latest` out of `diamondRegistry` gives when the store
already holds the manifest `M2`. -/
def diamondRunOverM2 : ReplicationRun :=
  { result :=
      { root := blobDescriptor "application/vnd.oci.image.index.v1+json" (ascii "I")
        copied := [ascii "I", ascii "M1", ascii "L"]
        skipped := [ascii "M2"] }
    store := [(ascii "M2", ascii "M2"), (ascii "I", ascii "I"), (ascii "M1", ascii "M1"),
      (ascii "L", ascii "L")]
    fetched := [ascii "I", ascii "M1", ascii "L"] }

/-- The run that finished without failure, if any. -/
def finishedRun (r : Option (Except ReplicationError ReplicationRun)) : Option ReplicationRun :=
  r.bind (fun e => match e with
    | .ok run => some run
    | .error _ => none)

/-- The invariant of a replication run started at the digest `root` on a store
holding the digests `present`: `visited` is `copied` together with `skipped`,
the copied digests are new to the store and the skipped ones were in it, and
`copied` is closed, up to the frontier, under the edges the engine follows. -/
structure RunInvariant (engine : Engine) (registry : RegistryClient) (present : List Digest)
    (root : Digest) (st : EngineState) : Prop where
  visited_iff : ∀ d, d ∈ st.visited ↔ d ∈ st.copied ∨ d ∈ st.skipped
  fetched_eq : st.fetched = st.copied
  store_eq : st.store.map Prod.fst = present ++ st.copied
  nodup_copied : st.copied.Nodup
  nodup_skipped : st.skipped.Nodup
  copied_new : ∀ d ∈ st.copied, d ∉ present
  skipped_old : ∀ d ∈ st.skipped, d ∈ present
  visited_reach : ∀ d ∈ st.visited, ReachableOutside engine registry present root d
  frontier_reach : ∀ x ∈ st.frontier, ReachableOutside engine registry present root x.digest
  root_seen : root ∈ st.visited ∨ ∃ x ∈ st.frontier, x.digest = root
  closed : ∀ d ∈ st.copied, ∀ node, registry.Fetch d = some node →
    ∀ b ∈ successors engine registry node,
      b.digest ∈ st.visited ∨ ∃ x ∈ st.frontier, x.digest = b.digest

/-- The number of descriptors a run may still pop: those in the frontier, and
the children and referrers of the nodes not yet visited. -/
def potential (registry : RegistryClient) (st : EngineState) : Nat :=
  st.frontier.length +
    ((registry.nodes.filter (fun n => decide (n.descriptor.digest ∉ st.visited))).map
      (fun n => n.children.length + (registry.Referrers n.descriptor.digest).length)).sum

end AcrCli

/-! # Theorems -/

namespace AcrCli

/-! ## `LoginURL` -/

theorem stringsContains_singleton (b : Fin 256) (s : GoString) :
    stringsContains s [b] = true ↔ b ∈ s := by
  induction s with
  | nil => simp [stringsContains]
  | cons c t ih =>
    simp only [stringsContains, Bool.or_eq_true, ih, List.mem_cons]
    simp [List.isPrefixOf]

theorem ascii_dot : ascii "." = [(46 : Fin 256)] := by decide

theorem dot_mem_registryURL : (46 : Fin 256) ∈ registryURL := by decide

/-- C7. `LoginURL` appends ".azurecr.io" to a name without a '.', leaves a name
with a '.' unchanged, always returns a name containing a '.', and is idempotent. -/
theorem LoginURL_fqdn (n : GoString) :
    ((46 : Fin 256) ∉ n → LoginURL n = n ++ ascii ".azurecr.io") ∧
    ((46 : Fin 256) ∈ n → LoginURL n = n) ∧
    (46 : Fin 256) ∈ LoginURL n ∧
    LoginURL (LoginURL n) = LoginURL n := by
  have key : ∀ m : GoString, (46 : Fin 256) ∈ m → LoginURL m = m := by
    intro m hm
    simp [LoginURL, ascii_dot, (stringsContains_singleton 46 m).2 hm]
  have mem : (46 : Fin 256) ∈ LoginURL n := by
    by_cases h : (46 : Fin 256) ∈ n
    · rw [key n h]; exact h
    · have hc : stringsContains n [(46 : Fin 256)] = false := by
        rw [Bool.eq_false_iff, Ne, stringsContains_singleton]; exact h
      simp only [LoginURL, ascii_dot, hc]
      exact List.mem_append_right _ dot_mem_registryURL
  refine ⟨?_, key n, mem, key _ mem⟩
  intro h
  have hc : stringsContains n [(46 : Fin 256)] = false := by
    rw [Bool.eq_false_iff, Ne, stringsContains_singleton]; exact h
  simp [LoginURL, ascii_dot, hc, registryURL]

/-- Witness for C7 on the names "myreg" (no dot) and "myreg.azurecr.cn" (dotted). -/
theorem LoginURL_fqdn_witness :
    LoginURL (ascii "myreg") = ascii "myreg" ++ ascii ".azurecr.io" ∧
    LoginURL (ascii "myreg.azurecr.cn") = ascii "myreg.azurecr.cn" :=
  ⟨(LoginURL_fqdn (ascii "myreg")).1 (by decide),
   (LoginURL_fqdn (ascii "myreg.azurecr.cn")).2.1 (by decide)⟩

/-! ## `BasicAuth` -/

theorem encodeIndex_eq_rfc4648Char_fin : ∀ i : Fin 64, encodeIndex i.val = rfc4648Char i.val := by
  decide

theorem encodeIndex_eq_rfc4648Char (i : Nat) (h : i < 64) : encodeIndex i = rfc4648Char i :=
  encodeIndex_eq_rfc4648Char_fin ⟨i, h⟩

theorem padChar_eq : padChar = 61 := rfl

theorem rfc4648Value_rfc4648Char_fin :
    ∀ i : Fin 64, rfc4648Value (rfc4648Char i.val) = some i.val := by
  decide

theorem rfc4648Value_rfc4648Char (i : Nat) (h : i < 64) :
    rfc4648Value (rfc4648Char i) = some i :=
  rfc4648Value_rfc4648Char_fin ⟨i, h⟩

theorem rfc4648Char_ne_pad_fin : ∀ i : Fin 64, rfc4648Char i.val ≠ 61 := by
  decide

theorem rfc4648Char_ne_pad (i : Nat) (h : i < 64) : rfc4648Char i ≠ 61 :=
  rfc4648Char_ne_pad_fin ⟨i, h⟩

theorem rfc4648Char_mem_fin : ∀ i : Fin 64, rfc4648Char i.val ∈
    ascii "ABCDEFGHIJKLMNOPQRSTUVWXYZabcdefghijklmnopqrstuvwxyz0123456789+/=" := by
  decide

theorem rfc4648Char_mem (i : Nat) (h : i < 64) : rfc4648Char i ∈
    ascii "ABCDEFGHIJKLMNOPQRSTUVWXYZabcdefghijklmnopqrstuvwxyz0123456789+/=" :=
  rfc4648Char_mem_fin ⟨i, h⟩

theorem pad_mem : (61 : Fin 256) ∈
    ascii "ABCDEFGHIJKLMNOPQRSTUVWXYZabcdefghijklmnopqrstuvwxyz0123456789+/=" := by
  decide

theorem and_0x3F (x : Nat) : x &&& 0x3F = x % 64 :=
  Nat.and_pow_two_sub_one_eq_mod x 6

theorem pack2 (a b : Nat) (hb : b < 256) : (a <<< 16) ||| (b <<< 8) = a * 65536 + b * 256 := by
  rw [Nat.shiftLeft_eq, Nat.shiftLeft_eq]
  have h := Nat.mul_add_lt_is_or (show b * 2 ^ 8 < 2 ^ 16 by omega) a
  rw [← Nat.mul_comm a] at h
  rw [← h]
  norm_num

theorem pack3 (a b c : Nat) (hb : b < 256) (hc : c < 256) :
    ((a <<< 16) ||| (b <<< 8)) ||| c = a * 65536 + b * 256 + c := by
  rw [pack2 a b hb]
  have h := Nat.mul_add_lt_is_or (show c < 2 ^ 8 by omega) (a * 256 + b)
  have e : 2 ^ 8 * (a * 256 + b) = a * 65536 + b * 256 := by omega
  rw [e] at h
  exact h.symm

theorem sextets (a b c : Nat) (ha : a < 256) (hb : b < 256) (hc : c < 256) :
    (a * 65536 + b * 256 + c) / 2 ^ 18 % 64 = a / 4 ∧
    (a * 65536 + b * 256 + c) / 2 ^ 12 % 64 = a % 4 * 16 + b / 16 ∧
    (a * 65536 + b * 256 + c) / 2 ^ 6 % 64 = b % 16 * 4 + c / 64 ∧
    (a * 65536 + b * 256 + c) % 64 = c % 64 := by
  norm_num
  omega

theorem sextets1 (a : Nat) (ha : a < 256) :
    a * 65536 / 2 ^ 18 % 64 = a / 4 ∧ a * 65536 / 2 ^ 12 % 64 = a % 4 * 16 := by
  norm_num
  omega

theorem sextets2 (a b : Nat) (ha : a < 256) (hb : b < 256) :
    (a * 65536 + b * 256) / 2 ^ 18 % 64 = a / 4 ∧
    (a * 65536 + b * 256) / 2 ^ 12 % 64 = a % 4 * 16 + b / 16 ∧
    (a * 65536 + b * 256) / 2 ^ 6 % 64 = b % 16 * 4 := by
  norm_num
  omega

/-- The encoder of Go `encoding/base64` with the standard alphabet computes the
encoding that RFC 4648 states. -/
theorem stdEncodeToString_eq_rfc4648Encode (l : GoString) :
    stdEncodeToString l = rfc4648Encode l := by
  induction l using stdEncodeToString.induct with
  | case1 => rfl
  | case2 b0 =>
    obtain ⟨b0, h0⟩ := b0
    have hs := sextets1 b0 h0
    simp only [stdEncodeToString, rfc4648Encode, Nat.shiftLeft_eq, Nat.shiftRight_eq_div_pow,
      and_0x3F, padChar_eq]
    rw [show b0 * 2 ^ 16 = b0 * 65536 by norm_num, hs.1, hs.2,
      encodeIndex_eq_rfc4648Char _ (by omega), encodeIndex_eq_rfc4648Char _ (by omega)]
  | case3 b0 b1 =>
    obtain ⟨b0, h0⟩ := b0
    obtain ⟨b1, h1⟩ := b1
    have hs := sextets2 b0 b1 h0 h1
    simp only [stdEncodeToString, rfc4648Encode, pack2 _ _ h1, Nat.shiftRight_eq_div_pow,
      and_0x3F, padChar_eq]
    rw [hs.1, hs.2.1, hs.2.2,
      encodeIndex_eq_rfc4648Char _ (by omega), encodeIndex_eq_rfc4648Char _ (by omega),
      encodeIndex_eq_rfc4648Char _ (by omega)]
  | case4 b0 b1 b2 rest ih =>
    obtain ⟨b0, h0⟩ := b0
    obtain ⟨b1, h1⟩ := b1
    obtain ⟨b2, h2⟩ := b2
    have hs := sextets b0 b1 b2 h0 h1 h2
    simp only [stdEncodeToString, rfc4648Encode, pack3 _ _ _ h1 h2, Nat.shiftRight_eq_div_pow,
      and_0x3F, ih]
    rw [hs.1, hs.2.1, hs.2.2.1, hs.2.2.2,
      encodeIndex_eq_rfc4648Char _ (by omega), encodeIndex_eq_rfc4648Char _ (by omega),
      encodeIndex_eq_rfc4648Char _ (by omega), encodeIndex_eq_rfc4648Char _ (by omega)]

theorem rfc4648Decode_rfc4648Encode (l : GoString) :
    rfc4648Decode (rfc4648Encode l) = some l := by
  induction l using rfc4648Encode.induct with
  | case1 => rfl
  | case2 b0 =>
    obtain ⟨b0, h0⟩ := b0
    simp only [rfc4648Encode, rfc4648Decode]
    rw [rfc4648Value_rfc4648Char _ (by omega), rfc4648Value_rfc4648Char _ (by omega)]
    simp only [and_self, if_true]
    congr 2
    apply Fin.ext
    simp only [Fin.ofNat, Fin.val_mk]
    omega
  | case3 b0 b1 =>
    obtain ⟨b0, h0⟩ := b0
    obtain ⟨b1, h1⟩ := b1
    simp only [rfc4648Encode, rfc4648Decode]
    rw [rfc4648Value_rfc4648Char _ (by omega), rfc4648Value_rfc4648Char _ (by omega),
      rfc4648Value_rfc4648Char _ (by omega)]
    simp only [rfc4648Char_ne_pad _ (show b1 % 16 * 4 < 64 by omega), if_true, if_false]
    congr 2
    · apply Fin.ext
      simp only [Fin.ofNat, Fin.val_mk]
      omega
    · congr 1
      apply Fin.ext
      simp only [Fin.ofNat, Fin.val_mk]
      omega
  | case4 b0 b1 b2 rest ih =>
    obtain ⟨b0, h0⟩ := b0
    obtain ⟨b1, h1⟩ := b1
    obtain ⟨b2, h2⟩ := b2
    simp only [rfc4648Encode, rfc4648Decode]
    rw [rfc4648Value_rfc4648Char _ (by omega), rfc4648Value_rfc4648Char _ (by omega),
      rfc4648Value_rfc4648Char _ (by omega), rfc4648Value_rfc4648Char _ (by omega), ih]
    simp only [rfc4648Char_ne_pad _ (show b1 % 16 * 4 + b2 / 64 < 64 by omega),
      rfc4648Char_ne_pad _ (show b2 % 64 < 64 by omega), if_false]
    congr 2
    · apply Fin.ext
      simp only [Fin.ofNat, Fin.val_mk]
      omega
    · congr 1
      · apply Fin.ext
        simp only [Fin.ofNat, Fin.val_mk]
        omega
      · congr 1
        apply Fin.ext
        simp only [Fin.ofNat, Fin.val_mk]
        omega

theorem rfc4648Encode_length (l : GoString) :
    (rfc4648Encode l).length = 4 * ((l.length + 2) / 3) := by
  induction l using rfc4648Encode.induct with
  | case1 => rfl
  | case2 b0 => simp [rfc4648Encode]
  | case3 b0 b1 => simp [rfc4648Encode]
  | case4 b0 b1 b2 rest ih =>
    simp only [rfc4648Encode, List.length_cons, ih]
    omega

theorem rfc4648Encode_alphabet (l : GoString) :
    ∀ c ∈ rfc4648Encode l,
      c ∈ ascii "ABCDEFGHIJKLMNOPQRSTUVWXYZabcdefghijklmnopqrstuvwxyz0123456789+/=" := by
  induction l using rfc4648Encode.induct with
  | case1 => simp [rfc4648Encode]
  | case2 b0 =>
    obtain ⟨b0, h0⟩ := b0
    intro c hc
    simp only [rfc4648Encode, List.mem_cons, List.mem_singleton, List.mem_nil_iff, or_false] at hc
    rcases hc with rfl | rfl | rfl | rfl
    · exact rfc4648Char_mem _ (by omega)
    · exact rfc4648Char_mem _ (by omega)
    · exact pad_mem
    · exact pad_mem
  | case3 b0 b1 =>
    obtain ⟨b0, h0⟩ := b0
    obtain ⟨b1, h1⟩ := b1
    intro c hc
    simp only [rfc4648Encode, List.mem_cons, List.mem_singleton, List.mem_nil_iff, or_false] at hc
    rcases hc with rfl | rfl | rfl | rfl
    · exact rfc4648Char_mem _ (by omega)
    · exact rfc4648Char_mem _ (by omega)
    · exact rfc4648Char_mem _ (by omega)
    · exact pad_mem
  | case4 b0 b1 b2 rest ih =>
    obtain ⟨b0, h0⟩ := b0
    obtain ⟨b1, h1⟩ := b1
    obtain ⟨b2, h2⟩ := b2
    intro c hc
    simp only [rfc4648Encode, List.mem_cons] at hc
    rcases hc with rfl | rfl | rfl | rfl | hc
    · exact rfc4648Char_mem _ (by omega)
    · exact rfc4648Char_mem _ (by omega)
    · exact rfc4648Char_mem _ (by omega)
    · exact rfc4648Char_mem _ (by omega)
    · exact ih c hc

theorem cutAt_append (sep : Fin 256) (u p : GoString) (h : sep ∉ u) :
    cutAt sep (u ++ sep :: p) = some (u, p) := by
  induction u with
  | nil => simp [cutAt]
  | cons c t ih =>
    have hc : c ≠ sep := fun e => h (by simp [e])
    have ht : sep ∉ t := fun m => h (List.mem_cons_of_mem _ m)
    simp [cutAt, hc, ih ht]

theorem ascii_colon : ascii ":" = [(58 : Fin 256)] := by decide

theorem ascii_Basic_length : (ascii "Basic ").length = 6 := by decide

/-- C8. `BasicAuth` returns the bytes of "Basic " followed by the standard padded
base64 encoding, as RFC 4648 states it, of `username:password`: the encoded part
is written in the alphabet `A-Z a-z 0-9 + /` with `=` padding and is four
characters for every three bytes; decoding it by RFC 4648 gives back
`username:password`, and when the username has no ':' cutting the decoded text
at its first ':' gives back the username and the password. -/
theorem BasicAuth_roundtrip (username password : GoString) :
    BasicAuth username password
      = [66, 97, 115, 105, 99, 32] ++ rfc4648Encode (username ++ [58] ++ password) ∧
    (∀ c ∈ (BasicAuth username password).drop 6,
      c ∈ ascii "ABCDEFGHIJKLMNOPQRSTUVWXYZabcdefghijklmnopqrstuvwxyz0123456789+/=") ∧
    ((BasicAuth username password).drop 6).length
      = 4 * (((username ++ [58] ++ password).length + 2) / 3) ∧
    rfc4648Decode ((BasicAuth username password).drop 6)
      = some (username ++ [58] ++ password) ∧
    ((58 : Fin 256) ∉ username →
      (rfc4648Decode ((BasicAuth username password).drop 6)).bind (cutAt 58)
        = some (username, password)) := by
  have hbasic : ascii "Basic " = [66, 97, 115, 105, 99, 32] := by decide
  have hauth : BasicAuth username password
      = ascii "Basic " ++ rfc4648Encode (username ++ [58] ++ password) := by
    simp only [BasicAuth, stdEncodeToString_eq_rfc4648Encode, ascii_colon]
  have hdrop : (BasicAuth username password).drop 6
      = rfc4648Encode (username ++ [58] ++ password) := by
    rw [hauth, ← ascii_Basic_length]
    exact List.drop_left _ _
  refine ⟨by rw [hauth, hbasic], ?_, ?_, ?_, ?_⟩
  · rw [hdrop]
    exact rfc4648Encode_alphabet _
  · rw [hdrop, rfc4648Encode_length]
  · rw [hdrop, rfc4648Decode_rfc4648Encode]
  · intro h
    rw [hdrop, rfc4648Decode_rfc4648Encode]
    simpa using cutAt_append 58 username password h

/-- Witness for C8: the header for "Aladdin" / "open sesame" is the one of
RFC 7617, the header for the bytes 0xFB / 0xFF uses `+` and `/`, and the
credentials are read back. -/
theorem BasicAuth_roundtrip_witness :
    BasicAuth (ascii "Aladdin") (ascii "open sesame")
      = ascii "Basic QWxhZGRpbjpvcGVuIHNlc2FtZQ==" ∧
    BasicAuth [251] [255] = ascii "Basic +zr/" ∧
    (rfc4648Decode ((BasicAuth (ascii "Aladdin") (ascii "open sesame")).drop 6)).bind (cutAt 58)
      = some (ascii "Aladdin", ascii "open sesame") :=
  ⟨(BasicAuth_roundtrip (ascii "Aladdin") (ascii "open sesame")).1.trans (by decide),
   (BasicAuth_roundtrip [251] [255]).1.trans (by decide),
   (BasicAuth_roundtrip (ascii "Aladdin") (ascii "open sesame")).2.2.2.2 (by decide)⟩

/-! ## The `cssc` and `patch` commands -/

/-- C5. When `GetAcrCLIClientWithAuth` fails with `err`, the `cssc` run returns
exactly `err` having only resolved the registry name and printed two lines, and
the `patch` run (which reaches authentication when `GetRegistryName` succeeds)
returns exactly `err` with the world unchanged: no `NewRepository`,
`ExtendedCopy`, `collectTagFilters`, `GetAcrRepositories` or `listTags` call is
made. -/
theorem authentication_failure_aborts {W : Type} (env : Collaborators W) (w : W)
    (copaParams : copaParameters) (client : Option AcrCLIClient) (err : GoError)
    (hauth : env.GetAcrCLIClientWithAuth
        (LoginURL (env.GetRegistryName copaParams.rootParameters).1)
        copaParams.rootParameters.username copaParams.rootParameters.password
        copaParams.rootParameters.configs = (client, some err)) :
    newCopaPatchCmd_RunE env copaParams =
      ([Event.GetRegistryName,
        Event.println (LoginURL (env.GetRegistryName copaParams.rootParameters).1),
        Event.println (env.GetRegistryName copaParams.rootParameters).1,
        Event.GetAcrCLIClientWithAuth (LoginURL (env.GetRegistryName copaParams.rootParameters).1)
          copaParams.rootParameters.username copaParams.rootParameters.password
          copaParams.rootParameters.configs],
       Outcome.returned (some err)) ∧
    ((env.GetRegistryName copaParams.rootParameters).2 = none →
      copaPatchCmd_RunE env w copaParams =
        (w, [Event.GetRegistryName,
          Event.GetAcrCLIClientWithAuth (LoginURL (env.GetRegistryName copaParams.rootParameters).1)
            copaParams.rootParameters.username copaParams.rootParameters.password
            copaParams.rootParameters.configs],
         Outcome.returned (some err))) := by
  constructor
  · simp only [newCopaPatchCmd_RunE, hauth]
  · intro hname
    have hpair : env.GetRegistryName copaParams.rootParameters
        = ((env.GetRegistryName copaParams.rootParameters).1, none) := by
      rw [← hname]
    unfold copaPatchCmd_RunE
    rw [hpair]
    simp only [hauth]

/-- Witness for C5: the run against a registry that rejects the credentials. -/
theorem authentication_failure_aborts_witness :
    (newCopaPatchCmd_RunE authFailsEnv (newCopaPatchCmd sampleRoot sampleFlags)).2
      = Outcome.returned (some (GoError.raw "unauthorized")) ∧
    (copaPatchCmd_RunE authFailsEnv () (newCopaPatchCmd sampleRoot sampleFlags)).2.2
      = Outcome.returned (some (GoError.raw "unauthorized")) :=
  have h := authentication_failure_aborts authFailsEnv () (newCopaPatchCmd sampleRoot sampleFlags)
    none (GoError.raw "unauthorized") rfl
  ⟨congrArg Prod.snd h.1, congrArg (fun r => r.2.2) (h.2 rfl)⟩

/-- C3 as stated fails: against a registry where `ExtendedCopy` fails, the
`cssc` run does not return to its caller at all; it panics with the error. -/
theorem cssc_copy_error_counterexample :
    (newCopaPatchCmd_RunE copyFailsEnv (newCopaPatchCmd sampleRoot sampleFlags)).2
      = Outcome.panicked (Panic.error (GoError.raw "manifest unknown")) ∧
    ¬ ∃ err, (newCopaPatchCmd_RunE copyFailsEnv (newCopaPatchCmd sampleRoot sampleFlags)).2
      = Outcome.returned err := by
  have h : (newCopaPatchCmd_RunE copyFailsEnv (newCopaPatchCmd sampleRoot sampleFlags)).2
      = Outcome.panicked (Panic.error (GoError.raw "manifest unknown")) := by decide
  refine ⟨h, ?_⟩
  rintro ⟨err, he⟩
  rw [h] at he
  cases he

/-- C3, amended. In every `cssc` run that gets past authentication and
`remote.NewRepository` and in which `ExtendedCopy` fails with `err`, the run
panics with `err` right after printing "after calling extended copy": it does
not return, and `collectTagFilters` is never called. -/
theorem replication_failure_panics {W : Type} (env : Collaborators W)
    (copaParams : copaParameters) (client : Option AcrCLIClient) (repo0 : Repository)
    (err : GoError)
    (hauth : env.GetAcrCLIClientWithAuth
        (LoginURL (env.GetRegistryName copaParams.rootParameters).1)
        copaParams.rootParameters.username copaParams.rootParameters.password
        copaParams.rootParameters.configs = (client, none))
    (hrepo : env.NewRepository
        ((env.GetRegistryName copaParams.rootParameters).1 ++ ascii "/ocirepocollection:latest")
        = (some repo0, none))
    (hcopy : env.ExtendedCopy
        { Reference := repo0.Reference
          Client := some { credentialRegistry := (env.GetRegistryName copaParams.rootParameters).1
                           Username := copaParams.rootParameters.username
                           Password := copaParams.rootParameters.password } }
        (ascii "latest") 0 (ascii "latest") = .error err) :
    (newCopaPatchCmd_RunE env copaParams).2 = Outcome.panicked (Panic.error err) ∧
    (newCopaPatchCmd_RunE env copaParams).1.getLast?
      = some (Event.println (ascii "after calling extended copy")) ∧
    collectTagFiltersCalls (newCopaPatchCmd_RunE env copaParams).1 = [] := by
  simp [newCopaPatchCmd_RunE, hauth, hrepo, memoryNew, hcopy, collectTagFiltersCalls]

/-- Witness for C3 (amended): the run against the registry where replication fails. -/
theorem replication_failure_panics_witness :
    (newCopaPatchCmd_RunE copyFailsEnv (newCopaPatchCmd sampleRoot sampleFlags)).2
      = Outcome.panicked (Panic.error (GoError.raw "manifest unknown")) :=
  (replication_failure_panics copyFailsEnv (newCopaPatchCmd sampleRoot sampleFlags)
    _ _ (GoError.raw "manifest unknown") rfl rfl rfl).1

/-- C2 as stated fails: with a filter that matches nothing (filter collection
returns no repository at all), the `cssc` run has already replicated the fixed
reference `latest`, and that call precedes the call of `collectTagFilters`. -/
theorem replication_before_filters_counterexample :
    okEnv.collectTagFilters [ascii "app:^v[0-9]+$"]
      { LoginURI := ascii "https://myreg.azurecr.io" } 60 = .ok [] ∧
    (extendedCopyCalls (beforeFilterCollection
        (newCopaPatchCmd_RunE okEnv (newCopaPatchCmd sampleRoot sampleFlags)).1)).map
      (fun c => c.2.1) = [ascii "latest"] ∧
    collectTagFiltersCalls (beforeFilterCollection
        (newCopaPatchCmd_RunE okEnv (newCopaPatchCmd sampleRoot sampleFlags)).1) = [] :=
  ⟨rfl, by decide, by decide⟩

/-- C2, amended. In every `cssc` run that gets past authentication and
`remote.NewRepository`, `oras.ExtendedCopy` is called exactly once, whatever the
filters are: from the repository `<registryName>/ocirepocollection:latest` at the
fixed reference `latest`, into the store that `memory.New()` created immediately
before the call (the only store of the run), and before any call of
`collectTagFilters`. -/
theorem replication_fixed_root {W : Type} (env : Collaborators W)
    (copaParams : copaParameters) (client : Option AcrCLIClient) (repo0 : Repository)
    (hauth : env.GetAcrCLIClientWithAuth
        (LoginURL (env.GetRegistryName copaParams.rootParameters).1)
        copaParams.rootParameters.username copaParams.rootParameters.password
        copaParams.rootParameters.configs = (client, none))
    (hrepo : env.NewRepository
        ((env.GetRegistryName copaParams.rootParameters).1 ++ ascii "/ocirepocollection:latest")
        = (some repo0, none)) :
    ∃ pre post : List Event,
      (newCopaPatchCmd_RunE env copaParams).1
        = pre ++ [Event.memoryNew 0,
            Event.ExtendedCopy
              { Reference := repo0.Reference
                Client := some
                  { credentialRegistry := (env.GetRegistryName copaParams.rootParameters).1
                    Username := copaParams.rootParameters.username
                    Password := copaParams.rootParameters.password } }
              (ascii "latest") 0 (ascii "latest")] ++ post ∧
      Event.NewRepository
        ((env.GetRegistryName copaParams.rootParameters).1 ++ ascii "/ocirepocollection:latest")
        ∈ pre ∧
      storesCreated pre = [] ∧ extendedCopyCalls pre = [] ∧ collectTagFiltersCalls pre = [] ∧
      storesCreated post = [] ∧ extendedCopyCalls post = [] := by
  refine ⟨[Event.GetRegistryName,
      Event.println (LoginURL (env.GetRegistryName copaParams.rootParameters).1),
      Event.println (env.GetRegistryName copaParams.rootParameters).1,
      Event.GetAcrCLIClientWithAuth (LoginURL (env.GetRegistryName copaParams.rootParameters).1)
        copaParams.rootParameters.username copaParams.rootParameters.password
        copaParams.rootParameters.configs,
      Event.NewRepository
        ((env.GetRegistryName copaParams.rootParameters).1 ++ ascii "/ocirepocollection:latest"),
      Event.println (ascii "authentication done"),
      Event.println repo0.Reference.Registry],
    ((newCopaPatchCmd_RunE env copaParams).1).drop 9, ?_, ?_, ?_, ?_, ?_, ?_, ?_⟩
  · simp only [newCopaPatchCmd_RunE, hauth, hrepo, memoryNew]
    split <;> [skip; (split <;> [skip; split])] <;>
      simp [List.countP_cons, List.countP_nil]
  · simp
  · simp [storesCreated]
  · simp [extendedCopyCalls]
  · simp [collectTagFiltersCalls]
  · simp only [newCopaPatchCmd_RunE, hauth, hrepo, memoryNew]
    split <;> [skip; (split <;> [skip; split])] <;>
      simp [storesCreated, List.countP_cons, List.countP_nil, List.filterMap_append,
        List.filterMap_map]
  · simp only [newCopaPatchCmd_RunE, hauth, hrepo, memoryNew]
    split <;> [skip; (split <;> [skip; split])] <;>
      simp [extendedCopyCalls, List.countP_cons, List.countP_nil, List.filterMap_append,
        List.filterMap_map]

/-- Witness for C2 (amended): the run against the registry where everything succeeds. -/
theorem replication_fixed_root_witness :
    ∃ pre post : List Event,
      (newCopaPatchCmd_RunE okEnv (newCopaPatchCmd sampleRoot sampleFlags)).1
        = pre ++ [Event.memoryNew 0,
            Event.ExtendedCopy
              { Reference := { Registry := ascii "myreg", Repository := ascii "ocirepocollection",
                               Reference := ascii "latest" }
                Client := some { credentialRegistry := ascii "myreg", Username := ascii "user",
                                 Password := ascii "pass" } }
              (ascii "latest") 0 (ascii "latest")] ++ post ∧
      Event.NewRepository (ascii "myreg" ++ ascii "/ocirepocollection:latest") ∈ pre ∧
      storesCreated pre = [] ∧ extendedCopyCalls pre = [] ∧ collectTagFiltersCalls pre = [] ∧
      storesCreated post = [] ∧ extendedCopyCalls post = [] :=
  replication_fixed_root okEnv (newCopaPatchCmd sampleRoot sampleFlags) _ _ rfl rfl

/-- C6. In every `cssc` run that reaches filter collection, `collectTagFilters`
is called exactly once, with the operator's filters and with a timeout budget of
60 seconds when `--filter-timeout-seconds` was not set, and of exactly the given
value when it was. -/
theorem filter_timeout_budget {W : Type} (env : Collaborators W) (rootParams : rootParameters)
    (flags : CsscFlags) (client : AcrCLIClient) (repo0 : Repository) (desc : Descriptor)
    (hauth : env.GetAcrCLIClientWithAuth (LoginURL (env.GetRegistryName rootParams).1)
        rootParams.username rootParams.password rootParams.configs = (some client, none))
    (hrepo : env.NewRepository
        ((env.GetRegistryName rootParams).1 ++ ascii "/ocirepocollection:latest")
        = (some repo0, none))
    (hcopy : env.ExtendedCopy
        { Reference := repo0.Reference
          Client := some { credentialRegistry := (env.GetRegistryName rootParams).1
                           Username := rootParams.username
                           Password := rootParams.password } }
        (ascii "latest") 0 (ascii "latest") = .ok desc) :
    collectTagFiltersCalls (newCopaPatchCmd_RunE env (newCopaPatchCmd rootParams flags)).1
      = [(flags.filter, client.AutorestClient,
          match flags.filterTimeoutSeconds with
          | none => 60
          | some seconds => seconds)] := by
  have ht : (newCopaPatchCmd rootParams flags).filterTimeout
      = (match flags.filterTimeoutSeconds with
          | none => 60
          | some seconds => seconds) := by
    cases h : flags.filterTimeoutSeconds <;>
      simp [newCopaPatchCmd, h, defaultRegexpMatchTimeoutSeconds]
  rw [← ht]
  have hcopy2 := hcopy
  simp only [newCopaPatchCmd_RunE, newCopaPatchCmd, hauth, hrepo, memoryNew]
  simp only [List.countP_cons, List.countP_nil, List.countP_append, Bool.false_eq_true, if_false,
    Nat.add_zero, hcopy2]
  split <;>
    simp [collectTagFiltersCalls, List.filterMap_append, List.filterMap_map]

/-- Witness for C6: the timeout left unset in one run and set to 5 in another. -/
theorem filter_timeout_budget_witness :
    collectTagFiltersCalls (newCopaPatchCmd_RunE okEnv (newCopaPatchCmd sampleRoot sampleFlags)).1
      = [([ascii "app:^v[0-9]+$"], { LoginURI := ascii "https://" ++ ascii "myreg.azurecr.io" }, 60)] ∧
    collectTagFiltersCalls (newCopaPatchCmd_RunE okEnv
        (newCopaPatchCmd sampleRoot { sampleFlags with filterTimeoutSeconds := some 5 })).1
      = [([ascii "app:^v[0-9]+$"], { LoginURI := ascii "https://" ++ ascii "myreg.azurecr.io" }, 5)] :=
  ⟨filter_timeout_budget okEnv sampleRoot sampleFlags _ _ _ rfl rfl rfl,
   filter_timeout_budget okEnv sampleRoot { sampleFlags with filterTimeoutSeconds := some 5 }
     _ _ _ rfl rfl rfl⟩

/-! ## `listRepositories` -/

theorem listTagsCalls_append (a b : List Event) :
    listTagsCalls (a ++ b) = listTagsCalls a ++ listTagsCalls b := by
  simp [listTagsCalls, List.filterMap_append]

theorem listTagsCalls_fmtPrint (lines : List GoString) :
    listTagsCalls (lines.map Event.fmtPrint) = [] := by
  induction lines with
  | nil => rfl
  | cons x t ih => simp [listTagsCalls]

theorem listTagsCalls_loop {W : Type} (env : Collaborators W) (acrClient : Option AcrCLIClient)
    (loginURL : GoString) (names : List GoString) (w : W) (trace : List Event) :
    listTagsCalls (listRepositories_loop env acrClient loginURL names w trace).2
      = listTagsCalls trace ++ names := by
  induction names generalizing w trace with
  | nil => simp [listRepositories_loop]
  | cons repository rest ih =>
    rw [listRepositories_loop, ih, listTagsCalls_append, listTagsCalls_append,
      listTagsCalls_fmtPrint]
    simp [listTagsCalls]

theorem loop_withoutListTagsErrors {W : Type} (env : Collaborators W)
    (acrClient : Option AcrCLIClient) (loginURL : GoString) (names : List GoString) (w : W)
    (trace : List Event) :
    listRepositories_loop (withoutListTagsErrors env) acrClient loginURL names w trace
      = listRepositories_loop env acrClient loginURL names w trace := by
  induction names generalizing w trace with
  | nil => rfl
  | cons repository rest ih =>
    rw [listRepositories_loop, listRepositories_loop, ih]
    rfl

/-- C4 as stated fails: a run in which `listTags` fails on repository `a` gives
the same world, the same trace and the same return value as the run in which it
succeeds; the failure is recorded nowhere. -/
theorem listTags_failure_not_recorded_counterexample :
    (listTagsFailsEnv.listTags () none (ascii "myreg.azurecr.io") (ascii "a")).2.2
      = some (GoError.raw "failed to list tags") ∧
    (okEnv.listTags () none (ascii "myreg.azurecr.io") (ascii "a")).2.2 = none ∧
    listRepositories listTagsFailsEnv () none (ascii "myreg.azurecr.io")
      = listRepositories okEnv () none (ascii "myreg.azurecr.io") := by
  decide

/-- C4, amended. For every list of repositories returned by the registry,
`listRepositories` calls `listTags` on every repository in listing order, each
exactly once, and returns nil, whether or not `listTags` fails on some of them;
the error that `listTags` returns is discarded (the run equals the one in
which every `listTags` succeeded). -/
theorem listRepositories_continues {W : Type} (env : Collaborators W) (w : W)
    (acrClient : Option AcrCLIClient) (loginURL : GoString) (names : List GoString)
    (hlist : (env.GetAcrRepositories w acrClient (ascii "")).2
        = (some { Names := some names }, none)) :
    (listRepositories env w acrClient loginURL).2.2 = Outcome.returned none ∧
    listTagsCalls (listRepositories env w acrClient loginURL).2.1 = names ∧
    listRepositories (withoutListTagsErrors env) w acrClient loginURL
      = listRepositories env w acrClient loginURL := by
  have h1 : (env.GetAcrRepositories w acrClient (ascii "")).2.1
      = some { Names := some names } := by rw [hlist]
  have h2 : (env.GetAcrRepositories w acrClient (ascii "")).2.2 = none := by rw [hlist]
  have h3 : (withoutListTagsErrors env).GetAcrRepositories = env.GetAcrRepositories := rfl
  refine ⟨?_, ?_, ?_⟩
  · simp only [listRepositories, h1, h2]
  · simp only [listRepositories, h1, h2, listTagsCalls_loop]
    simp [listTagsCalls]
  · simp only [listRepositories, h3, h1, h2, loop_withoutListTagsErrors]

/-- Witness for C4 (amended): the registry where `listTags` fails on `a`;
`listTags` is still called on `a` and then on `b`. -/
theorem listRepositories_continues_witness :
    listTagsCalls (listRepositories listTagsFailsEnv () none (ascii "myreg.azurecr.io")).2.1
      = [ascii "a", ascii "b"] :=
  (listRepositories_continues listTagsFailsEnv () none (ascii "myreg.azurecr.io")
    [ascii "a", ascii "b"] rfl).2.1

/-- C9 at its failing input: when `GetAcrRepositories` succeeds with a response
whose `Names` field is nil, `listRepositories` dereferences it and panics. -/
theorem listRepositories_nil_names_panics :
    listRepositories nilNamesEnv () none (ascii "myreg.azurecr.io")
      = ((), [Event.GetAcrRepositories (ascii "")], Outcome.panicked Panic.nilDereference) := by
  decide

/-- What `listRepositories` returns, by cases on the answer of `GetAcrRepositories`:
the wrapped error when the call failed, nil for a nil response and for a
response that has a list of names, a panic for a response without one. -/
theorem listRepositories_outcome {W : Type} (env : Collaborators W) (w : W)
    (acrClient : Option AcrCLIClient) (loginURL : GoString) :
    (listRepositories env w acrClient loginURL).2.2 =
      match (env.GetAcrRepositories w acrClient (ascii "")).2.2,
          (env.GetAcrRepositories w acrClient (ascii "")).2.1 with
      | some err, _ => Outcome.returned (some (GoError.wrap err "failed to list repositories"))
      | none, none => Outcome.returned none
      | none, some { Names := none } => Outcome.panicked Panic.nilDereference
      | none, some { Names := some _ } => Outcome.returned none := by
  split <;> simp_all [listRepositories, errorsWrap]

/-! ## The replication engine -/

theorem mem_setInsert (d x : Digest) (set : List Digest) :
    x ∈ setInsert d set ↔ x = d ∨ x ∈ set := by
  unfold setInsert
  split
  · constructor
    · exact Or.inr
    · rintro (rfl | h)
      · assumption
      · exact h
  · simp [or_comm]

theorem setInsert_of_not_mem (d : Digest) (set : List Digest) (h : d ∉ set) :
    setInsert d set = set ++ [d] := by
  simp [setInsert, h]

theorem nodup_setInsert (d : Digest) (set : List Digest) (h : set.Nodup) :
    (setInsert d set).Nodup := by
  unfold setInsert
  split
  · exact h
  · rename_i hd
    rw [List.nodup_append]
    exact ⟨h, List.nodup_singleton _, by simpa using hd⟩

theorem exists_iff_mem (store : ContentStore) (d : Digest) :
    store.Exists d = true ↔ d ∈ store.map Prod.fst := by
  unfold ContentStore.Exists
  rw [List.any_eq_true, List.mem_map]
  constructor
  · rintro ⟨e, he, hd⟩
    exact ⟨e, he, by simpa using hd⟩
  · rintro ⟨e, he, hd⟩
    exact ⟨e, he, by simpa using hd⟩

theorem invariant_init (engine : Engine) (registry : RegistryClient) (dst : ContentStore)
    (root : ContentDescriptor) :
    RunInvariant engine registry (dst.map Prod.fst) root.digest
      { frontier := [root], visited := [], copied := [], skipped := [], store := dst,
        fetched := [] } where
  visited_iff := by simp
  fetched_eq := rfl
  store_eq := by simp
  nodup_copied := List.nodup_nil
  nodup_skipped := List.nodup_nil
  copied_new := by simp
  skipped_old := by simp
  visited_reach := by simp
  frontier_reach := by
    intro x hx
    simp only [List.mem_singleton] at hx
    subst hx
    exact ReachableOutside.root
  root_seen := Or.inr ⟨root, by simp, rfl⟩
  closed := by simp

theorem invariant_drop (engine : Engine) (registry : RegistryClient) (present : List Digest)
    (root : Digest) (st : EngineState) (x : ContentDescriptor) (rest : List ContentDescriptor)
    (inv : RunInvariant engine registry present root st) (hf : st.frontier = x :: rest)
    (hx : x.digest ∈ st.visited) :
    RunInvariant engine registry present root { st with frontier := rest } where
  visited_iff := inv.visited_iff
  fetched_eq := inv.fetched_eq
  store_eq := inv.store_eq
  nodup_copied := inv.nodup_copied
  nodup_skipped := inv.nodup_skipped
  copied_new := inv.copied_new
  skipped_old := inv.skipped_old
  visited_reach := inv.visited_reach
  frontier_reach := by
    intro y hy
    exact inv.frontier_reach y (by rw [hf]; exact List.mem_cons_of_mem _ hy)
  root_seen := by
    rcases inv.root_seen with h | ⟨y, hy, hyr⟩
    · exact Or.inl h
    · rw [hf, List.mem_cons] at hy
      rcases hy with rfl | hy
      · exact Or.inl (hyr ▸ hx)
      · exact Or.inr ⟨y, hy, hyr⟩
  closed := by
    intro d hd node hn b hb
    rcases inv.closed d hd node hn b hb with h | ⟨y, hy, hyb⟩
    · exact Or.inl h
    · rw [hf, List.mem_cons] at hy
      rcases hy with rfl | hy
      · exact Or.inl (hyb ▸ hx)
      · exact Or.inr ⟨y, hy, hyb⟩

theorem invariant_skip (engine : Engine) (registry : RegistryClient) (present : List Digest)
    (root : Digest) (st : EngineState) (x : ContentDescriptor) (rest : List ContentDescriptor)
    (inv : RunInvariant engine registry present root st) (hf : st.frontier = x :: rest)
    (hx : x.digest ∉ st.visited) (he : st.store.Exists x.digest = true) :
    RunInvariant engine registry present root
      { st with frontier := rest
                visited := setInsert x.digest st.visited
                skipped := setInsert x.digest st.skipped } := by
  have hxc : x.digest ∉ st.copied := fun h => hx ((inv.visited_iff _).2 (Or.inl h))
  have hxp : x.digest ∈ present := by
    have h := (exists_iff_mem _ _).1 he
    rw [inv.store_eq, List.mem_append] at h
    exact h.resolve_right hxc
  have hxr : ReachableOutside engine registry present root x.digest :=
    inv.frontier_reach x (by rw [hf]; exact List.mem_cons_self _ _)
  refine
    { visited_iff := ?_
      fetched_eq := inv.fetched_eq
      store_eq := inv.store_eq
      nodup_copied := inv.nodup_copied
      nodup_skipped := nodup_setInsert _ _ inv.nodup_skipped
      copied_new := inv.copied_new
      skipped_old := ?_
      visited_reach := ?_
      frontier_reach := ?_
      root_seen := ?_
      closed := ?_ }
  · intro d
    simp only [mem_setInsert, inv.visited_iff]
    tauto
  · intro d hd
    rcases (mem_setInsert _ _ _).1 hd with rfl | h
    · exact hxp
    · exact inv.skipped_old d h
  · intro d hd
    rcases (mem_setInsert _ _ _).1 hd with rfl | h
    · exact hxr
    · exact inv.visited_reach d h
  · intro y hy
    exact inv.frontier_reach y (by rw [hf]; exact List.mem_cons_of_mem _ hy)
  · rcases inv.root_seen with h | ⟨y, hy, hyr⟩
    · exact Or.inl ((mem_setInsert _ _ _).2 (Or.inr h))
    · rw [hf, List.mem_cons] at hy
      rcases hy with rfl | hy
      · exact Or.inl ((mem_setInsert _ _ _).2 (Or.inl hyr.symm))
      · exact Or.inr ⟨y, hy, hyr⟩
  · intro d hd node hn b hb
    rcases inv.closed d hd node hn b hb with h | ⟨y, hy, hyb⟩
    · exact Or.inl ((mem_setInsert _ _ _).2 (Or.inr h))
    · rw [hf, List.mem_cons] at hy
      rcases hy with rfl | hy
      · exact Or.inl ((mem_setInsert _ _ _).2 (Or.inl hyb.symm))
      · exact Or.inr ⟨y, hy, hyb⟩

theorem invariant_copy (engine : Engine) (registry : RegistryClient) (present : List Digest)
    (root : Digest) (st : EngineState) (x : ContentDescriptor) (rest : List ContentDescriptor)
    (node : ContentNode) (store : ContentStore)
    (inv : RunInvariant engine registry present root st) (hf : st.frontier = x :: rest)
    (hx : x.digest ∉ st.visited) (he : ¬ st.store.Exists x.digest = true)
    (hn : registry.Fetch x.digest = some node)
    (hp : st.store.Put engine.hash x node.payload = some store) :
    RunInvariant engine registry present root
      { frontier := rest ++ successors engine registry node
        visited := setInsert x.digest st.visited
        copied := setInsert x.digest st.copied
        skipped := st.skipped
        store := store
        fetched := st.fetched ++ [x.digest] } := by
  have hxc : x.digest ∉ st.copied := fun h => hx ((inv.visited_iff _).2 (Or.inl h))
  have hxp : x.digest ∉ present := by
    intro h
    apply he
    rw [exists_iff_mem, inv.store_eq]
    exact List.mem_append_left _ h
  have hxr : ReachableOutside engine registry present root x.digest :=
    inv.frontier_reach x (by rw [hf]; exact List.mem_cons_self _ _)
  have hstore : store = st.store ++ [(x.digest, node.payload)] := by
    unfold ContentStore.Put at hp
    split at hp
    · simp only [he, if_false, Option.some.injEq] at hp
      exact hp.symm
    · cases hp
  refine
    { visited_iff := ?_
      fetched_eq := by simp only [inv.fetched_eq, setInsert_of_not_mem _ _ hxc]
      store_eq := by
        simp only [hstore, List.map_append, inv.store_eq, setInsert_of_not_mem _ _ hxc,
          List.map_cons, List.map_nil, List.append_assoc]
      nodup_copied := nodup_setInsert _ _ inv.nodup_copied
      nodup_skipped := inv.nodup_skipped
      copied_new := ?_
      skipped_old := inv.skipped_old
      visited_reach := ?_
      frontier_reach := ?_
      root_seen := ?_
      closed := ?_ }
  · intro d
    simp only [mem_setInsert, inv.visited_iff]
    tauto
  · intro d hd
    rcases (mem_setInsert _ _ _).1 hd with rfl | h
    · exact hxp
    · exact inv.copied_new d h
  · intro d hd
    rcases (mem_setInsert _ _ _).1 hd with rfl | h
    · exact hxr
    · exact inv.visited_reach d h
  · intro y hy
    simp only [List.mem_append] at hy
    rcases hy with hy | hy
    · exact inv.frontier_reach y (by rw [hf]; exact List.mem_cons_of_mem _ hy)
    · exact ReachableOutside.edge node hxr hxp hn hy
  · rcases inv.root_seen with h | ⟨y, hy, hyr⟩
    · exact Or.inl ((mem_setInsert _ _ _).2 (Or.inr h))
    · rw [hf, List.mem_cons] at hy
      rcases hy with rfl | hy
      · exact Or.inl ((mem_setInsert _ _ _).2 (Or.inl hyr.symm))
      · exact Or.inr ⟨y, by simp [hy], hyr⟩
  · intro d hd node2 hn2 b hb
    rcases (mem_setInsert _ _ _).1 hd with rfl | h
    · rw [hn] at hn2
      cases hn2
      exact Or.inr ⟨b, by simp [hb], rfl⟩
    · rcases inv.closed d h node2 hn2 b hb with h2 | ⟨y, hy, hyb⟩
      · exact Or.inl ((mem_setInsert _ _ _).2 (Or.inr h2))
      · rw [hf, List.mem_cons] at hy
        rcases hy with rfl | hy
        · exact Or.inl ((mem_setInsert _ _ _).2 (Or.inl hyb.symm))
        · exact Or.inr ⟨y, by simp [hy], hyb⟩

theorem replicateLoop_invariant (engine : Engine) (registry : RegistryClient)
    (present : List Digest) (root : Digest) (fuel : Nat) (st st2 : EngineState)
    (inv : RunInvariant engine registry present root st)
    (h : replicateLoop engine registry fuel st = some (.ok st2)) :
    RunInvariant engine registry present root st2 ∧ st2.frontier = [] := by
  induction fuel generalizing st with
  | zero =>
    unfold replicateLoop at h
    split at h
    · rename_i he
      cases h
      exact ⟨inv, List.isEmpty_iff.1 he⟩
    · cases h
  | succ fuel ih =>
    unfold replicateLoop at h
    split at h
    · rename_i hf
      cases h
      exact ⟨inv, hf⟩
    · rename_i x rest hf
      split at h
      · rename_i hx
        exact ih _ (invariant_drop engine registry present root st x rest inv hf hx) h
      · rename_i hx
        split at h
        · rename_i he
          exact ih _ (invariant_skip engine registry present root st x rest inv hf hx he) h
        · rename_i he
          split at h
          · cases h
          · rename_i node hn
            split at h
            · cases h
            · rename_i store hp
              exact ih _
                (invariant_copy engine registry present root st x rest node store inv hf hx he
                  hn hp) h

theorem reachable_mem_visited (engine : Engine) (registry : RegistryClient)
    (present : List Digest) (root : Digest) (st : EngineState)
    (inv : RunInvariant engine registry present root st) (hf : st.frontier = [])
    (d : Digest) (h : ReachableOutside engine registry present root d) : d ∈ st.visited := by
  induction h with
  | root =>
    rcases inv.root_seen with h | ⟨y, hy, _⟩
    · exact h
    · rw [hf] at hy
      cases hy
  | edge node _ ha hn hb ih =>
    have hc := ((inv.visited_iff _).1 ih).resolve_right (fun hs => ha (inv.skipped_old _ hs))
    rcases inv.closed _ hc node hn _ hb with h | ⟨y, hy, _⟩
    · exact h
    · rw [hf] at hy
      cases hy

theorem reachableOutside_nil (engine : Engine) (registry : RegistryClient) (root d : Digest) :
    ReachableOutside engine registry [] root d ↔ Reachable engine registry root d := by
  constructor
  · intro h
    induction h with
    | root => exact Reachable.root
    | edge node _ _ hn hb ih => exact Reachable.edge node ih hn hb
  · intro h
    induction h with
    | root => exact ReachableOutside.root
    | edge node _ hn hb ih => exact ReachableOutside.edge node ih (List.not_mem_nil _) hn hb

theorem fetch_mem (registry : RegistryClient) (d : Digest) (node : ContentNode)
    (h : registry.Fetch d = some node) : node ∈ registry.nodes ∧ node.descriptor.digest = d := by
  unfold RegistryClient.Fetch at h
  exact ⟨List.mem_of_find?_eq_some h, by simpa using List.find?_some h⟩

theorem sum_filter_le (w : ContentNode → Nat) (p q : ContentNode → Bool)
    (hqp : ∀ n, q n = true → p n = true) (l : List ContentNode) :
    ((l.filter q).map w).sum ≤ ((l.filter p).map w).sum := by
  induction l with
  | nil => simp
  | cons a t ih =>
    cases hqa : q a
    · cases hpa : p a
      · simpa [List.filter_cons, hqa, hpa] using ih
      · simp only [List.filter_cons, hqa, hpa, if_true, List.map_cons, List.sum_cons]
        simp only [Bool.false_eq_true, if_false]
        omega
    · have hpa := hqp a hqa
      simp only [List.filter_cons, hqa, hpa, if_true, List.map_cons, List.sum_cons]
      omega

theorem sum_filter_drop (w : ContentNode → Nat) (p q : ContentNode → Bool)
    (hqp : ∀ n, q n = true → p n = true) (x : ContentNode) (hp : p x = true)
    (hq : q x = false) (l : List ContentNode) (hx : x ∈ l) :
    ((l.filter q).map w).sum + w x ≤ ((l.filter p).map w).sum := by
  induction l with
  | nil => cases hx
  | cons a t ih =>
    rw [List.mem_cons] at hx
    rcases hx with rfl | hx
    · have := sum_filter_le w p q hqp t
      simp only [List.filter_cons, hq, hp, if_true, List.map_cons, List.sum_cons]
      simp only [Bool.false_eq_true, if_false]
      omega
    · have := ih hx
      cases hqa : q a
      · cases hpa : p a
        · simpa [List.filter_cons, hqa, hpa] using this
        · simp only [List.filter_cons, hqa, hpa, if_true, List.map_cons, List.sum_cons]
          simp only [Bool.false_eq_true, if_false]
          omega
      · have hpa := hqp a hqa
        simp only [List.filter_cons, hqa, hpa, if_true, List.map_cons, List.sum_cons]
        omega

theorem successors_length_le (engine : Engine) (registry : RegistryClient) (node : ContentNode) :
    (successors engine registry node).length
      ≤ node.children.length + (registry.Referrers node.descriptor.digest).length := by
  unfold successors
  split <;> simp

theorem replicateLoop_terminates (engine : Engine) (registry : RegistryClient) (fuel : Nat)
    (st : EngineState) (h : potential registry st ≤ fuel) :
    ∃ r, replicateLoop engine registry fuel st = some r := by
  induction fuel generalizing st with
  | zero =>
    have hf : st.frontier = [] := by
      unfold potential at h
      exact List.length_eq_zero.1 (by omega)
    exact ⟨.ok st, by simp [replicateLoop, hf]⟩
  | succ fuel ih =>
    unfold replicateLoop
    split
    · exact ⟨_, rfl⟩
    · rename_i x rest hf
      have hmono := sum_filter_le
        (fun n => n.children.length + (registry.Referrers n.descriptor.digest).length)
        (fun n => decide (n.descriptor.digest ∉ st.visited))
        (fun n => decide (n.descriptor.digest ∉ setInsert x.digest st.visited))
        (by
          intro n hn2
          simp only [decide_eq_true_eq] at hn2 ⊢
          exact fun hv => hn2 ((mem_setInsert _ _ _).2 (Or.inr hv)))
        registry.nodes
      split
      · apply ih
        unfold potential at h ⊢
        simp only [hf, List.length_cons] at h
        simp only
        omega
      · rename_i hx
        split
        · apply ih
          unfold potential at h ⊢
          simp only [hf, List.length_cons] at h
          simp only at hmono ⊢
          omega
        · split
          · exact ⟨_, rfl⟩
          · rename_i node hn
            split
            · exact ⟨_, rfl⟩
            · apply ih
              obtain ⟨hmem, hdig⟩ := fetch_mem registry _ node hn
              have hdrop := sum_filter_drop
                (fun n => n.children.length + (registry.Referrers n.descriptor.digest).length)
                (fun n => decide (n.descriptor.digest ∉ st.visited))
                (fun n => decide (n.descriptor.digest ∉ setInsert x.digest st.visited))
                (by
                  intro n hn2
                  simp only [decide_eq_true_eq] at hn2 ⊢
                  exact fun hv => hn2 ((mem_setInsert _ _ _).2 (Or.inr hv)))
                node (by simpa [hdig] using hx)
                (by simp [hdig, mem_setInsert])
                registry.nodes hmem
              have hlen := successors_length_le engine registry node
              unfold potential at h ⊢
              simp only [hf, List.length_cons] at h
              simp only [List.length_append]
              simp only at hdrop
              omega

theorem potential_init (registry : RegistryClient) (root : ContentDescriptor)
    (dst : ContentStore) :
    potential registry
      { frontier := [root], visited := [], copied := [], skipped := [], store := dst,
        fetched := [] } ≤ stepBudget registry := by
  simp [potential, stepBudget, Nat.add_comm]

/-- A replication run into any destination store ends, and when it succeeds
`copied` and `skipped` have no duplicates, the copied digests are exactly the
ones fetched and added to the store, none of them was in the store before, the
skipped digests all were, and together the two sets are the digests reachable
from the root without passing through a digest the store already held. -/
theorem replicate_partition (engine : Engine) (registry : RegistryClient)
    (reference : GoString) (dst : ContentStore) :
    (∃ r, Replicate engine registry reference dst = some r) ∧
    ∀ run, Replicate engine registry reference dst = some (.ok run) →
      run.result.copied.Nodup ∧ run.result.skipped.Nodup ∧
      run.fetched = run.result.copied ∧
      run.store.map Prod.fst = dst.map Prod.fst ++ run.result.copied ∧
      (∀ d ∈ run.result.copied, d ∉ dst.map Prod.fst) ∧
      (∀ d ∈ run.result.skipped, d ∈ dst.map Prod.fst) ∧
      (∀ d, ReachableOutside engine registry (dst.map Prod.fst) run.result.root.digest d ↔
        d ∈ run.result.copied ∨ d ∈ run.result.skipped) := by
  constructor
  · unfold Replicate
    split
    · exact ⟨_, rfl⟩
    · rename_i root _
      obtain ⟨r, hr⟩ := replicateLoop_terminates engine registry (stepBudget registry) _
        (potential_init registry root dst)
      rw [hr]
      rcases r with e | st
      · exact ⟨_, rfl⟩
      · exact ⟨_, rfl⟩
  · intro run h
    unfold Replicate at h
    split at h
    · cases h
    · rename_i root _
      split at h
      · cases h
      · cases h
      · rename_i st hst
        cases h
        obtain ⟨inv, hf⟩ := replicateLoop_invariant engine registry _ root.digest _ _ st
          (invariant_init engine registry dst root) hst
        refine ⟨inv.nodup_copied, inv.nodup_skipped, inv.fetched_eq, inv.store_eq,
          inv.copied_new, inv.skipped_old, fun d => ⟨fun hd => ?_, fun hd => ?_⟩⟩
        · exact (inv.visited_iff d).1 (reachable_mem_visited engine registry _ _ st inv hf d hd)
        · exact inv.visited_reach d ((inv.visited_iff d).2 hd)

/-- A run over a store that already holds the manifest `M2`: `M2` is skipped and
not fetched, the other three digests are copied, each once. -/
theorem replicate_over_existing :
    finishedRun (Replicate sampleEngine diamondRegistry (ascii "latest")
      [(ascii "M2", ascii "M2")]) = some diamondRunOverM2 := by
  decide

theorem count_eq_one_of_nodup (d : Digest) (l : List Digest) (h : l.Nodup) (hd : d ∈ l) :
    l.count d = 1 := by
  have e : (List.instBEq : BEq Digest) = instBEqOfDecidableEq :=
    lawful_beq_subsingleton _ _
  rw [e]
  exact List.count_eq_one_of_mem h hd

theorem diamond_layer_reachable :
    Reachable sampleEngine diamondRegistry (ascii "I") (ascii "L") := by
  have h1 : Reachable sampleEngine diamondRegistry (ascii "I")
      (blobDescriptor "application/vnd.oci.image.manifest.v1+json" (ascii "M1")).digest :=
    Reachable.edge
      { descriptor := blobDescriptor "application/vnd.oci.image.index.v1+json" (ascii "I")
        payload := ascii "I"
        children := [blobDescriptor "application/vnd.oci.image.manifest.v1+json" (ascii "M1"),
          blobDescriptor "application/vnd.oci.image.manifest.v1+json" (ascii "M2")]
        subject := none }
      Reachable.root (by decide) (by decide)
  exact Reachable.edge (b := blobDescriptor "application/vnd.oci.image.layer.v1.tar" (ascii "L"))
    { descriptor := blobDescriptor "application/vnd.oci.image.manifest.v1+json" (ascii "M1")
      payload := ascii "M1"
      children := [blobDescriptor "application/vnd.oci.image.layer.v1.tar" (ascii "L")]
      subject := none }
    h1 (by decide) (by decide)

/-- C1. In every `cssc` run that gets past authentication and
`remote.NewRepository`, the one `oras.ExtendedCopy` call replicates the
reference `latest` of the source repository into the new, empty memory store;
this replication run always ends, and when it succeeds the run prints the root
digest and, for every artifact graph (also one in which a node is referenced by
two or more parents): every digest reachable from the root is fetched exactly
once and stored exactly once, `copied` and `skipped` are disjoint, and every
reachable digest, and no other, is in exactly one of the two sets. -/
theorem replication_dedup {W : Type} (env : Collaborators W) (engine : Engine)
    (remote : Repository → RegistryClient) (copaParams : copaParameters)
    (client : Option AcrCLIClient) (repo0 : Repository)
    (hauth : env.GetAcrCLIClientWithAuth
        (LoginURL (env.GetRegistryName copaParams.rootParameters).1)
        copaParams.rootParameters.username copaParams.rootParameters.password
        copaParams.rootParameters.configs = (client, none))
    (hrepo : env.NewRepository
        ((env.GetRegistryName copaParams.rootParameters).1 ++ ascii "/ocirepocollection:latest")
        = (some repo0, none)) :
    (∃ r, Replicate engine (remote (csscRepository env copaParams repo0)) (ascii "latest") []
      = some r) ∧
    ∀ run, Replicate engine (remote (csscRepository env copaParams repo0)) (ascii "latest") []
        = some (.ok run) →
      extendedCopyCalls (newCopaPatchCmd_RunE (withEngine env engine remote) copaParams).1
        = [(csscRepository env copaParams repo0, ascii "latest", 0, ascii "latest")] ∧
      Event.println run.result.root.digest
        ∈ (newCopaPatchCmd_RunE (withEngine env engine remote) copaParams).1 ∧
      (∀ d, Reachable engine (remote (csscRepository env copaParams repo0))
          run.result.root.digest d →
        run.fetched.count d = 1 ∧ (run.store.map Prod.fst).count d = 1) ∧
      List.Disjoint run.result.copied run.result.skipped ∧
      (∀ d, Reachable engine (remote (csscRepository env copaParams repo0))
          run.result.root.digest d ↔
        (d ∈ run.result.copied ∧ d ∉ run.result.skipped) ∨
        (d ∈ run.result.skipped ∧ d ∉ run.result.copied)) := by
  obtain ⟨hends, hpart⟩ := replicate_partition engine
    (remote (csscRepository env copaParams repo0)) (ascii "latest") []
  refine ⟨hends, ?_⟩
  intro run h
  obtain ⟨hnc, _, hfet, hstore, _, hold, hreach⟩ := hpart run h
  have hskip : ∀ d, d ∉ run.result.skipped := fun d hd => by simpa using hold d hd
  have hmem : ∀ d, Reachable engine (remote (csscRepository env copaParams repo0))
      run.result.root.digest d ↔ d ∈ run.result.copied := by
    intro d
    rw [← reachableOutside_nil]
    have := hreach d
    simp only [List.map_nil] at this
    rw [this]
    exact ⟨fun hd => hd.resolve_right (hskip d), Or.inl⟩
  have hcopy : orasExtendedCopy engine remote
      { Reference := repo0.Reference
        Client := some { credentialRegistry := (env.GetRegistryName copaParams.rootParameters).1
                         Username := copaParams.rootParameters.username
                         Password := copaParams.rootParameters.password } }
      (ascii "latest") 0 (ascii "latest") = .ok { Digest := run.result.root.digest } := by
    have h2 := h
    simp only [csscRepository] at h2
    simp only [orasExtendedCopy, h2]
  refine ⟨?_, ?_, ?_, ?_, ?_⟩
  · simp only [newCopaPatchCmd_RunE, withEngine, hauth, hrepo, memoryNew]
    simp only [List.countP_cons, List.countP_nil, List.countP_append, Bool.false_eq_true,
      if_false, Nat.add_zero, hcopy]
    split <;> [skip; split] <;>
      simp [extendedCopyCalls, csscRepository, List.filterMap_append, List.filterMap_map]
  · simp only [newCopaPatchCmd_RunE, withEngine, hauth, hrepo, memoryNew]
    simp only [List.countP_cons, List.countP_nil, List.countP_append, Bool.false_eq_true,
      if_false, Nat.add_zero, hcopy]
    split <;> [skip; split] <;> simp
  · intro d hd
    have hc := (hmem d).1 hd
    simp only [List.map_nil, List.nil_append] at hstore
    rw [hfet, hstore]
    exact ⟨count_eq_one_of_nodup d _ hnc hc, count_eq_one_of_nodup d _ hnc hc⟩
  · intro d _ hs
    exact hskip d hs
  · intro d
    rw [hmem d]
    constructor
    · exact fun hc => Or.inl ⟨hc, hskip d⟩
    · rintro (⟨hc, _⟩ | ⟨hs, _⟩)
      · exact hc
      · exact absurd hs (hskip d)

/-- Witness for C1: the `cssc` run against a repository holding the index `I`
whose two manifests share the layer `L`; `L` is fetched once and stored once,
and it is in `copied` and not in `skipped`. -/
theorem replication_dedup_witness :
    Event.println (ascii "I")
      ∈ (newCopaPatchCmd_RunE (withEngine okEnv sampleEngine (fun _ => diamondRegistry))
          (newCopaPatchCmd sampleRoot sampleFlags)).1 ∧
    diamondRun.fetched.count (ascii "L") = 1 ∧
    (diamondRun.store.map Prod.fst).count (ascii "L") = 1 ∧
    ((ascii "L" ∈ diamondRun.result.copied ∧ ascii "L" ∉ diamondRun.result.skipped) ∨
      (ascii "L" ∈ diamondRun.result.skipped ∧ ascii "L" ∉ diamondRun.result.copied)) :=
  have h := (replication_dedup okEnv sampleEngine (fun _ => diamondRegistry)
    (newCopaPatchCmd sampleRoot sampleFlags) _ _ rfl rfl).2 diamondRun rfl
  ⟨h.2.1, (h.2.2.1 (ascii "L") diamond_layer_reachable).1,
    (h.2.2.1 (ascii "L") diamond_layer_reachable).2,
    (h.2.2.2.2 (ascii "L")).1 diamond_layer_reachable⟩

end AcrCli
